import Mathlib

/-!
# Verification of the RAG-System query orchestration loop

A shallow embedding of the query-orchestration core of the repository
(`src/app/agents/orchestrator.py`, `src/app/agents/tailor.py`,
`src/app/guardrails/__init__.py`, `src/app/schemas/*.py`) together with
theorems settling the frozen claims about it.

Conventions of the embedding:
* Python strings are Lean `String`s; scanning works over `List Char`.
* Python floats that are only passed through (relevance scores,
  thresholds) are modelled as `Rat`; `round(x, 2)` is modelled as exact
  rational rounding (the value never feeds a claim).
* `async` port calls are modelled as pure functions supplied as
  parameters (the orchestrator receives its collaborators by injection
  in the source as well).
* Mutation of the plan ledger (`self._plan`) is modelled as an explicit
  event log (`PlanEvent`): appending a step and assigning a status each
  emit one event; `replayPlan` folds the log into the ledger value.
-/

/-! ## Character and string helpers (Python `\s`, `\w`, `str.strip`, `str.lower`) -/

/-- Python ASCII whitespace as matched by `\s` and `str.strip()`. -/
def pyIsSpace (c : Char) : Bool :=
  c = ' ' || c = '\t' || c = '\n' || c = '\x0d' || c = '\x0b' || c = '\x0c'

/-- Python `\w`: ASCII letters, digits, underscore. -/
def pyIsWord (c : Char) : Bool :=
  (('a' ≤ c && c ≤ 'z') || ('A' ≤ c && c ≤ 'Z') || ('0' ≤ c && c ≤ '9') || c = '_')

/-- ASCII decimal digit (`\d`). -/
def pyIsDigit (c : Char) : Bool := '0' ≤ c && c ≤ '9'

/-- ASCII letter. -/
def pyIsAlpha (c : Char) : Bool := ('a' ≤ c && c ≤ 'z') || ('A' ≤ c && c ≤ 'Z')

/-- `re` word boundary test between an optional previous character and an
optional next character (true when exactly one side is a word char; both
our uses have a word char on the inside, so only the outside is tested). -/
def notWordOpt : Option Char → Bool
  | none => true
  | some c => !(pyIsWord c)

/-- Collapse each maximal run of whitespace to a single space
(`re.sub(r"\s+", " ", s)`); `prevSpace` records whether the previous
character belonged to a whitespace run already emitted as `' '`. -/
def collapseWsGo (prevSpace : Bool) : List Char → List Char
  | [] => []
  | c :: cs =>
    if pyIsSpace c then
      if prevSpace then collapseWsGo true cs
      else ' ' :: collapseWsGo true cs
    else c :: collapseWsGo false cs

/-- `re.sub(r"\s+", " ", s)`. -/
def collapseWs (l : List Char) : List Char := collapseWsGo false l

/-- Python `str.strip()` on a character list. -/
def pyStripL (l : List Char) : List Char :=
  ((l.dropWhile pyIsSpace).reverse.dropWhile pyIsSpace).reverse

/-- Python `str.strip()`. -/
def pyStrip (s : String) : String := String.mk (pyStripL s.data)

/-- Python `str.lower()` (ASCII fragment). -/
def pyLower (s : String) : String := String.mk (s.data.map Char.toLower)

/-- `re.sub(r"\s+", " ", content).strip().lower()` — the content
normalization shared by `tailor._deduplicate_context` and
`orchestrator._summary_min_citations`. -/
def normalizeContent (s : String) : String :=
  String.mk ((pyStripL (collapseWs s.data)).map Char.toLower)

/-- `needle` occurs as a contiguous substring of `hay` (Python `in`). -/
def prefixOfL : List Char → List Char → Bool
  | [], _ => true
  | _ :: _, [] => false
  | a :: as, b :: bs => a = b && prefixOfL as bs

/-- Substring occurrence test over char lists. -/
def infixOfL (needle : List Char) : List Char → Bool
  | [] => prefixOfL needle []
  | c :: rest => prefixOfL needle (c :: rest) || infixOfL needle rest

/-- Python `needle in hay` for strings. -/
def strContains (hay needle : String) : Bool := infixOfL needle.data hay.data

/-! ## Data model (`src/app/schemas/*.py`) -/

/-- `PlanStatus` literal from `schemas/base.py`. -/
inductive PlanStatus
  | pending
  | in_progress
  | completed
  | failed
deriving DecidableEq, Repr

/-- `Persona` literal from `schemas/base.py`. -/
inductive Persona
  | Technical
  | Executive
  | General
deriving DecidableEq, Repr

/-- `CheckType` literal from `schemas/base.py`. -/
inductive CheckType
  | input_validation
  | output_safety
deriving DecidableEq, Repr

/-- `RiskCategory` literal from `schemas/base.py` (the `"none"` literal is
represented by `Option.none` at use sites, as the source stores
`RiskCategory | None`). -/
inductive RiskCategory
  | injection
  | pii
  | hate_speech
  | malicious_code
deriving DecidableEq, Repr

/-- `AgentFailure` from `schemas/base.py` (the `timestamp` is dropped and
the free-form `details` map is reduced to the only payload the
orchestrator ever stores there, a list of invalid chunk ids). The
`AgentFailureError` exception wraps exactly these fields, so one type
models both. -/
structure AgentFailure where
  agent_id : String
  error_code : String
  message : String
  recoverable : Bool := false
  details : List String := []
deriving DecidableEq, Repr

/-! Standard error codes from `schemas/base.py` (`class ErrorCodes`),
restricted to the ones the orchestration loop uses. -/

namespace ErrorCodes

def guardrailInjection : String := "ERR_GUARDRAIL_INJECTION"

def guardrailUnsafe : String := "ERR_GUARDRAIL_UNSAFE"

def memoryNoResults : String := "ERR_MEMORY_NO_RESULTS"

def tailorHallucination : String := "ERR_TAILOR_HALLUCINATION"

def timedOut : String := "ERR_TIMEOUT"

end ErrorCodes

/-- `GuardrailsInput` from `schemas/guardrails.py`. -/
structure GuardrailsInput where
  content : String
  check_type : CheckType
deriving DecidableEq, Repr

/-- `GuardrailsOutput` from `schemas/guardrails.py`. -/
structure GuardrailsOutput where
  is_safe : Bool
  sanitized_content : String
  risk_category : Option RiskCategory
  reasoning : String
deriving DecidableEq, Repr

/-- `RetrievedContext` from `schemas/memory.py` (`metadata` dropped:
nothing in the orchestration loop reads it; `relevance_score` as `Rat`). -/
structure RetrievedContext where
  chunk_id : String
  content : String
  source_id : String
  source_url : Option String := none
  relevance_score : Rat := 0
deriving DecidableEq, Repr

/-- `MemoryQuery` from `schemas/memory.py` (`filters` dropped — the
orchestrator always passes `None`). -/
structure MemoryQuery where
  query_text : String
  top_k : Nat := 5
  min_relevance_score : Rat := 0.7
deriving DecidableEq, Repr

/-- `MemoryOutput` from `schemas/memory.py`. -/
structure MemoryOutput where
  results : List RetrievedContext
  total_found : Nat
deriving DecidableEq, Repr

/-- `SourceCitation` from `schemas/tailor.py`. -/
structure SourceCitation where
  source_id : String
  chunk_id : String
  text_snippet : String
  url : Option String := none
deriving DecidableEq, Repr

/-- `TailorInput` from `schemas/tailor.py`. -/
structure TailorInput where
  user_query : String
  context_chunks : List RetrievedContext
  persona : Persona := .General
  formatting_instructions : Option String := none
deriving DecidableEq, Repr

/-- `TailorOutput` from `schemas/tailor.py` (`tone_used` keeps the
`Persona` value echoed back by the source). -/
structure TailorOutput where
  content : String
  citations : List SourceCitation
  tone_used : Persona
  follow_up_suggestions : List String
  confidence_score : Rat
deriving DecidableEq, Repr

/-- `PlanStep` from `schemas/orchestrator.py`. -/
structure PlanStep where
  step_id : Nat
  description : String
  tool_call : String
  status : PlanStatus
deriving DecidableEq, Repr

/-- `QueryRequest` from `schemas/api.py` (`text` non-empty is enforced by
pydantic; carried as data here). -/
structure QueryRequest where
  text : String
  persona : Persona := .General
  stream : Bool := false
deriving DecidableEq, Repr

/-- `OrchestratorOutput` from `schemas/orchestrator.py`
(`processing_time_total_ms` dropped: wall-clock time is outside the
embedding). -/
structure OrchestratorOutput where
  final_response : TailorOutput
  execution_plan : List PlanStep
deriving DecidableEq, Repr

/-! ## Guardrails agent (`src/app/guardrails/__init__.py`)

The four injection regexes, five hate keywords, four malicious-code
regexes and four PII regexes of `GuardrailsAgent` are embedded as
scanners over `List Char` with Python `re` semantics (case-insensitive
literals, greedy `\s+`, word boundaries, and leftmost match with the
backtracking actually reachable for these concrete patterns). -/

/-- Case-insensitive literal: consume `target` from the front of the
input and return the remainder. -/
def pLit : List Char → List Char → Option (List Char)
  | [], l => some l
  | _ :: _, [] => none
  | t :: ts, c :: cs => if c.toLower = t.toLower then pLit ts cs else none

/-- Greedy `\s+`: consume one or more whitespace characters. (All uses
below are followed by a non-whitespace literal, so greedy matching needs
no backtracking.) -/
def pWs1 (l : List Char) : Option (List Char) :=
  if (l.takeWhile pyIsSpace).isEmpty then none else some (l.dropWhile pyIsSpace)

/-- A pattern matcher: given the previous character (for `\b`) and the
input suffix, return the length of the match starting here, if any. -/
abbrev ReMatcher := Option Char → List Char → Option Nat

/-- `ignore\s+previous\s+instructions` (IGNORECASE). -/
def matchInj1 : ReMatcher := fun _ l =>
  (pLit "ignore".data l).bind fun r1 =>
  (pWs1 r1).bind fun r2 =>
  (pLit "previous".data r2).bind fun r3 =>
  (pWs1 r3).bind fun r4 =>
  (pLit "instructions".data r4).map fun r5 => l.length - r5.length

/-- `\bdo\s+anything\s+now\b` (IGNORECASE). -/
def matchInj2 : ReMatcher := fun prev l =>
  if notWordOpt prev then
    (pLit "do".data l).bind fun r1 =>
    (pWs1 r1).bind fun r2 =>
    (pLit "anything".data r2).bind fun r3 =>
    (pWs1 r3).bind fun r4 =>
    (pLit "now".data r4).bind fun r5 =>
    if notWordOpt r5.head? then some (l.length - r5.length) else none
  else none

/-- `\bDAN\b` (IGNORECASE). -/
def matchInj3 : ReMatcher := fun prev l =>
  if notWordOpt prev then
    (pLit "dan".data l).bind fun r =>
    if notWordOpt r.head? then some (l.length - r.length) else none
  else none

/-- `act\s+as\s+an?\s+unfiltered` (IGNORECASE); the optional `n?` is
greedy with a fallback, as in `re`. -/
def matchInj4 : ReMatcher := fun _ l =>
  (pLit "act".data l).bind fun r1 =>
  (pWs1 r1).bind fun r2 =>
  (pLit "as".data r2).bind fun r3 =>
  (pWs1 r3).bind fun r4 =>
  (pLit "a".data r4).bind fun r5 =>
  let withN :=
    (pLit "n".data r5).bind fun r6 =>
    (pWs1 r6).bind fun r7 =>
    (pLit "unfiltered".data r7).map fun r8 => l.length - r8.length
  match withN with
  | some n => some n
  | none =>
    (pWs1 r5).bind fun r7 =>
    (pLit "unfiltered".data r7).map fun r8 => l.length - r8.length

/-- `os\.system` (IGNORECASE). -/
def matchMal1 : ReMatcher := fun _ l =>
  (pLit "os.system".data l).map fun r => l.length - r.length

/-- `subprocess\.run` (IGNORECASE). -/
def matchMal2 : ReMatcher := fun _ l =>
  (pLit "subprocess.run".data l).map fun r => l.length - r.length

/-- `rm\s+-rf\s+/` (IGNORECASE). -/
def matchMal3 : ReMatcher := fun _ l =>
  (pLit "rm".data l).bind fun r1 =>
  (pWs1 r1).bind fun r2 =>
  (pLit "-rf".data r2).bind fun r3 =>
  (pWs1 r3).bind fun r4 =>
  (pLit "/".data r4).map fun r5 => l.length - r5.length

/-- `bash\s+-c` (IGNORECASE). -/
def matchMal4 : ReMatcher := fun _ l =>
  (pLit "bash".data l).bind fun r1 =>
  (pWs1 r1).bind fun r2 =>
  (pLit "-c".data r2).map fun r3 => l.length - r3.length

/-- `\b\d{3}-\d{2}-\d{4}\b` (SSN). -/
def matchSSN : ReMatcher := fun prev l =>
  match l with
  | a :: b :: c :: '-' :: d :: e :: '-' :: f :: g :: h :: i :: rest =>
    if notWordOpt prev && pyIsDigit a && pyIsDigit b && pyIsDigit c &&
        pyIsDigit d && pyIsDigit e && pyIsDigit f && pyIsDigit g &&
        pyIsDigit h && pyIsDigit i && notWordOpt rest.head? then
      some 11
    else none
  | _ => none

/-- Characters of the API-token body class `[a-z0-9]` under IGNORECASE. -/
def isTokChar (c : Char) : Bool := pyIsAlpha c || pyIsDigit c

/-- `\bsk-[a-z0-9]{8,}\b` (IGNORECASE). Greedy `{8,}` cannot backtrack
successfully here because every class character is a word character. -/
def matchTok : ReMatcher := fun prev l =>
  if notWordOpt prev then
    match l with
    | s :: k :: '-' :: rest =>
      if s.toLower = 's' && k.toLower = 'k' then
        let run := rest.takeWhile isTokChar
        if 8 ≤ run.length && notWordOpt (rest.drop run.length).head? then
          some (3 + run.length)
        else none
      else none
    | _ => none
  else none

/-- Local-part class `[A-Za-z0-9._%+-]` of the email pattern. -/
def isLocalChar (c : Char) : Bool :=
  pyIsAlpha c || pyIsDigit c || c = '.' || c = '_' || c = '%' || c = '+' || c = '-'

/-- Domain class `[A-Za-z0-9.-]` of the email pattern. -/
def isDomChar (c : Char) : Bool := pyIsAlpha c || pyIsDigit c || c = '.' || c = '-'

/-- Backtracking of the greedy `[A-Za-z0-9.-]+\.[A-Za-z]{2,}` tail of the
email pattern: inside the maximal domain-character run, find the largest
position `k ≥ 1` holding a literal `'.'` followed by at least two
letters; return that position and the greedy letter-run length. -/
def emailSplitGo (run : List Char) : Nat → Option (Nat × Nat)
  | 0 => none
  | k + 1 =>
    if run.get? (k + 1) = some '.' then
      let m := ((run.drop (k + 2)).takeWhile pyIsAlpha).length
      if 2 ≤ m then some (k + 1, m) else emailSplitGo run k
    else emailSplitGo run k

/-- `[A-Za-z0-9._%+-]+@[A-Za-z0-9.-]+\.[A-Za-z]{2,}` (email). -/
def matchEmail : ReMatcher := fun _ l =>
  let localPart := l.takeWhile isLocalChar
  if localPart.isEmpty then none
  else
    match l.drop localPart.length with
    | '@' :: rest =>
      let run := rest.takeWhile isDomChar
      match run.length with
      | 0 => none
      | n + 1 =>
        match emailSplitGo run n with
        | some (k, m) => some (localPart.length + 1 + k + 1 + m)
        | none => none
    | _ => none

/-- `\b\d{16}\b` (simplistic credit-card check). Exactly sixteen leading
digits: a seventeenth digit makes the trailing `\b` fail with no
backtracking alternative. -/
def matchCC : ReMatcher := fun prev l =>
  if notWordOpt prev then
    let run := l.takeWhile pyIsDigit
    if run.length = 16 && notWordOpt (l.drop 16).head? then some 16 else none
  else none

/-- `pattern.search`: scan left to right, returning the text of the first
match (`match.group(0)`). -/
def reSearchGo (matchAt : ReMatcher) (prev : Option Char) : List Char → Option String
  | [] => none
  | c :: rest =>
    match matchAt prev (c :: rest) with
    | some n => some (String.mk ((c :: rest).take n))
    | none => reSearchGo matchAt (some c) rest

/-- `GuardrailsAgent._match_any`: first pattern (in declaration order)
whose `search` succeeds wins. -/
def matchAny (patterns : List ReMatcher) (content : String) : Option String :=
  match patterns with
  | [] => none
  | p :: ps =>
    match reSearchGo p none content.data with
    | some m => some m
    | none => matchAny ps content

/-- `GuardrailsAgent._contains_keyword`: first keyword contained in the
lowercased content. -/
def containsKeyword (content : String) (keywords : List String) : Option String :=
  keywords.find? fun kw => strContains (pyLower content) kw

/-- `pattern.sub` with a replacer that records each `match.group(0)`:
returns the rewritten text and the matched texts in order. The fuel is
the input length; every step consumes at least one character (none of
the embedded patterns matches the empty string, and a hypothetical
zero-length match is treated as no match), so fuel never runs out. -/
def reSubGo (matchAt : ReMatcher) (placeholder : List Char) :
    Nat → Option Char → List Char → List Char × List String
  | 0, _, l => (l, [])
  | _ + 1, _, [] => ([], [])
  | fuel + 1, prev, c :: rest =>
    match matchAt prev (c :: rest) with
    | some (n + 1) =>
      let matched := (c :: rest).take (n + 1)
      let (t, ms) := reSubGo matchAt placeholder fuel matched.getLast? ((c :: rest).drop (n + 1))
      (placeholder ++ t, String.mk matched :: ms)
    | _ =>
      let (t, ms) := reSubGo matchAt placeholder fuel (some c) rest
      (c :: t, ms)

/-- `_PII_PLACEHOLDER`. -/
def piiPlaceholder : String := "[REDACTED:PII]"

/-- One `pattern.sub(_replacer, text)` pass. -/
def reSub (matchAt : ReMatcher) (l : List Char) : List Char × List String :=
  reSubGo matchAt piiPlaceholder.data l.length none l

/-- `GuardrailsAgent._sanitize_pii`: the four PII substitutions applied
in sequence (each over the previous result), matches accumulated in
pattern order. -/
def sanitize_pii (text : String) : String × List String :=
  let (t1, m1) := reSub matchSSN text.data
  let (t2, m2) := reSub matchTok t1
  let (t3, m3) := reSub matchEmail t2
  let (t4, m4) := reSub matchCC t3
  (String.mk t4, m1 ++ m2 ++ m3 ++ m4)

/-- `_DetectionResult` (guardrails internal dataclass). -/
structure DetectionResult where
  risk_category : Option RiskCategory
  reasoning : String
  sanitized_content : String
  pii_matches : List String
deriving DecidableEq, Repr

/-- The `_injection_patterns` tuple, in declaration order. -/
def injectionPatterns : List ReMatcher := [matchInj1, matchInj2, matchInj3, matchInj4]

/-- The `_hate_keywords` tuple, in declaration order. -/
def hateKeywords : List String :=
  ["exterminate", "kill all", "eradicate", "ethnic cleansing", "genocide"]

/-- The `_malicious_patterns` tuple, in declaration order. -/
def maliciousPatterns : List ReMatcher := [matchMal1, matchMal2, matchMal3, matchMal4]

/-- `GuardrailsAgent._scan`. -/
def guardrailsScan (payload : GuardrailsInput) : DetectionResult :=
  let content := payload.content
  let sp := sanitize_pii content
  let sanitized := sp.1
  let piiMatches := sp.2
  match matchAny injectionPatterns content with
  | some m =>
    ⟨some .injection, s!"Detected prompt-injection phrase: \x27{m}\x27.", sanitized, piiMatches⟩
  | none =>
  match containsKeyword content hateKeywords with
  | some kw =>
    ⟨some .hate_speech, s!"Detected hate/toxicity keyword: \x27{kw}\x27.", sanitized, piiMatches⟩
  | none =>
  match matchAny maliciousPatterns content with
  | some m =>
    ⟨some .malicious_code, s!"Detected malicious code intent via \x27{m}\x27.", sanitized, piiMatches⟩
  | none =>
    if piiMatches.isEmpty then
      ⟨none, "No guardrail violations detected.", sanitized, piiMatches⟩
    else
      let n := piiMatches.length
      ⟨some .pii, s!"Identified PII patterns ({n} match(es)) and applied redaction.", sanitized, piiMatches⟩

/-- `GuardrailsAgent._is_safe`. -/
def guardrailsIsSafe (risk : Option RiskCategory) (check_type : CheckType) : Bool :=
  match risk with
  | none => true
  | some r => r = .pii && check_type = .input_validation

/-- `GuardrailsAgent.evaluate`. -/
def guardrailsEvaluate (payload : GuardrailsInput) : GuardrailsOutput :=
  let detection := guardrailsScan payload
  ⟨guardrailsIsSafe detection.risk_category payload.check_type,
    detection.sanitized_content, detection.risk_category, detection.reasoning⟩

/-- `GuardrailsAgent.enforce` (returns the sanitized result when safe,
an `AgentFailure` otherwise; the failure's `details` dict is dropped as
in the `AgentFailure` model). -/
def guardrailsEnforce (payload : GuardrailsInput) : GuardrailsOutput ⊕ AgentFailure :=
  let result := guardrailsEvaluate payload
  if result.is_safe then .inl result
  else
    let injection := result.risk_category = some RiskCategory.injection
    .inr
      { agent_id := "guardrails"
        error_code :=
          if injection then ErrorCodes.guardrailInjection else ErrorCodes.guardrailUnsafe
        message :=
          if injection then "Prompt injection detected; request blocked."
          else "Unsafe content detected; guardrails blocked the payload."
        recoverable := false }

/-! ## Tailor agent (`src/app/agents/tailor.py`) -/

/-- `_deduplicate_context`, worker: a chunk is dropped when its
`chunk_id` or its normalized content was already registered by a *kept*
chunk (skipped chunks register neither key). -/
def deduplicateGo (seenIds seenContent : List String) :
    List RetrievedContext → List RetrievedContext
  | [] => []
  | chunk :: rest =>
    if chunk.chunk_id ∈ seenIds then deduplicateGo seenIds seenContent rest
    else
      let normalized := normalizeContent chunk.content
      if normalized ∈ seenContent then deduplicateGo seenIds seenContent rest
      else
        chunk :: deduplicateGo (chunk.chunk_id :: seenIds) (normalized :: seenContent) rest

/-- `tailor._deduplicate_context`. -/
def deduplicate_context (chunks : List RetrievedContext) : List RetrievedContext :=
  deduplicateGo [] [] chunks

/-- `tailor._calculate_confidence` (`fmean`, then clamp into
`[0.35, 0.98]` after rounding to two decimals; `round` on a binary float
is modelled as exact rational rounding). -/
def calculate_confidence (chunks : List RetrievedContext) : Rat :=
  let scores := chunks.map (·.relevance_score)
  let base := if scores.isEmpty then 0.5 else scores.sum / scores.length
  max 0.35 (min 0.98 ((round (base * 100) : Int) / 100))

/-- The `chunk.source_url or 'N/A'` truthiness test of
`_build_context_text`. -/
def urlOrNA : Option String → String
  | none => "N/A"
  | some u => if u = "" then "N/A" else u

/-- Numbered context lines of `_build_context_text` (1-based). -/
def contextLinesGo : Nat → List RetrievedContext → List String
  | _, [] => []
  | i, chunk :: rest =>
    let content := chunk.content
    let sid := chunk.source_id
    let url := urlOrNA chunk.source_url
    s!"[{i}] {content} (Source: {sid}, URL: {url})" :: contextLinesGo (i + 1) rest

/-- `TailorAgent._build_context_text`. -/
def build_context_text (chunks : List RetrievedContext) : String :=
  String.intercalate "\n\n" (contextLinesGo 1 chunks)

/-- Decimal digits to the integer Python `int` parses (no overflow:
Python integers are unbounded). -/
def digitsToNat (ds : List Char) : Nat :=
  ds.foldl (fun n c => n * 10 + (c.toNat - '0'.toNat)) 0

/-- `re.findall(r"\[(\d+)\]", response)`, worker: the parsed numbers of
all non-overlapping citation markers, scanning left to right (on a
failed match the scan advances one character, as `re` does). The fuel is
the input length; every step consumes at least one character. -/
def findCitationNumsGo : Nat → List Char → List Nat
  | 0, _ => []
  | _ + 1, [] => []
  | fuel + 1, '[' :: rest =>
    let ds := rest.takeWhile pyIsDigit
    if ds.isEmpty then findCitationNumsGo fuel rest
    else
      match rest.drop ds.length with
      | ']' :: after => digitsToNat ds :: findCitationNumsGo fuel after
      | _ => findCitationNumsGo fuel rest
  | fuel + 1, _ :: rest => findCitationNumsGo fuel rest

/-- `re.findall(r"\[(\d+)\]", response)`. -/
def findCitationNums (l : List Char) : List Nat := findCitationNumsGo l.length l

/-- `TailorAgent._extract_citations`, worker over the marker numbers:
`idx = n - 1`; out-of-range indices are dropped, repeated indices are
dropped, and a kept index contributes the citation built from
`chunks[idx]` (snippet truncated to 200 characters). -/
def extractCitationsGo (chunks : List RetrievedContext) (seen : List Nat) :
    List Nat → List SourceCitation
  | [] => []
  | n :: rest =>
    if n = 0 || chunks.length < n then extractCitationsGo chunks seen rest
    else
      let idx := n - 1
      if idx ∈ seen then extractCitationsGo chunks seen rest
      else
        match chunks.get? idx with
        | some chunk =>
          ⟨chunk.source_id, chunk.chunk_id, String.mk (chunk.content.data.take 200),
            chunk.source_url⟩ :: extractCitationsGo chunks (idx :: seen) rest
        | none => extractCitationsGo chunks seen rest

/-- `TailorAgent._extract_citations`. -/
def extract_citations (response : String) (chunks : List RetrievedContext) :
    List SourceCitation :=
  extractCitationsGo chunks [] (findCitationNums response.data)

/-- `TailorAgent._generate_followups`. -/
def generate_followups (query : String) : List String :=
  let q := pyLower query
  let followups := ["Would you like more details on any specific aspect?"]
  let followups := followups ++
    (if strContains q "compare" || strContains q " vs " then
      ["Would you like a detailed comparison table?"] else [])
  let followups := followups ++
    (if strContains q "how" || strContains q "why" then
      ["Should I explain the underlying mechanisms?"] else [])
  let followups := followups ++
    (if strContains q "budget" || strContains q "cost" then
      ["Would you like a breakdown of the costs?"] else [])
  followups.take 3

/-- Render a `Persona` as the string pydantic stores. -/
def personaStr : Persona → String
  | .Technical => "Technical"
  | .Executive => "Executive"
  | .General => "General"

/-- `TailorAgent._build_system_prompt`. -/
def build_system_prompt (persona : Persona) : String :=
  let p := personaStr persona
  s!"You are a helpful assistant that synthesizes grounded answers from retrieved context.\n\nPersona: {p}\n" ++
  "- Technical: Use precise terminology, include technical details\n" ++
  "- Executive: Focus on high-level insights, business impact\n" ++
  "- General: Balance clarity and detail for general audience\n\n" ++
  "CRITICAL RULES:\n" ++
  "1. ONLY use information from the provided context chunks\n" ++
  "2. Cite sources using [1], [2], etc. corresponding to chunk indices\n" ++
  "3. If context is insufficient, state \"I don\x27t have enough information to answer this question.\"\n" ++
  "4. Be concise and accurate\n" ++
  "5. ALWAYS include at least one citation in your response\n\n" ++
  "Example:\nContext:\n[1] The Q3 cloud budget is $45,000... (Source: budget_doc)\n" ++
  "[2] AWS spending increased 15% in Q3... (Source: cloud_report)\n\n" ++
  "Question: What is the Q3 cloud budget?\n" ++
  "Answer: The Q3 cloud budget is $45,000 [1]. AWS spending contributed to a 15% increase in Q3 [2]."

/-- `TailorAgent._build_user_prompt`. -/
def build_user_prompt (query context_text : String) (fmt : Option String) : String :=
  let prompt := s!"Question: {query}\n\nContext:\n{context_text}\n\nSynthesize a grounded answer with citations."
  match fmt with
  | some f => prompt ++ s!"\n\nFormatting: {f}"
  | none => prompt

/-- `TailorAgent._build_tailor_output` (raising
`AgentFailureError` becomes `Except.error`). -/
def build_tailor_output (payload : TailorInput) (context : List RetrievedContext)
    (content : String) : Except AgentFailure TailorOutput :=
  let citations := extract_citations content context
  if citations.isEmpty then
    .error ⟨"tailor", ErrorCodes.tailorHallucination,
      "LLM response missing required citations", true, []⟩
  else
    .ok ⟨content, citations, payload.persona, generate_followups payload.user_query,
      calculate_confidence context⟩

/-- `TailorAgent.process`, parameterized by the generation port
(`LLMService.generate` reduced to prompt × system → text or failure). -/
def tailor_process (gen : String → String → Except AgentFailure String)
    (payload : TailorInput) : Except AgentFailure TailorOutput :=
  if payload.context_chunks.isEmpty then
    .error ⟨"tailor", ErrorCodes.tailorHallucination,
      "No context available to ground the response.", false, []⟩
  else
    let unique := deduplicate_context payload.context_chunks
    let context_text := build_context_text unique
    match gen (build_user_prompt payload.user_query context_text payload.formatting_instructions)
        (build_system_prompt payload.persona) with
    | .error r =>
      let m := r.message
      .error ⟨"tailor", r.error_code, s!"LLM synthesis failed: {m}", r.recoverable, r.details⟩
    | .ok result => build_tailor_output payload unique result

/-- `TailorAgent.finalize_streamed_output`. -/
def finalize_streamed_output (payload : TailorInput) (content : String) :
    Except AgentFailure TailorOutput :=
  build_tailor_output payload (deduplicate_context payload.context_chunks) content

/-! ## Topic extraction (`orchestrator._extract_topics` / `_llm_extract_topics`) -/

/-- JSON whitespace. -/
def jsonWs (c : Char) : Bool := c = ' ' || c = '\t' || c = '\n' || c = '\x0d'

/-- Body of a JSON string literal after the opening quote: returns the
decoded value and the input after the closing quote (escape decoding
simplified to backslash-skip; claims never depend on decoded escapes). -/
def jsonStringGo : Nat → List Char → Option (List Char × List Char)
  | 0, _ => none
  | _ + 1, [] => none
  | fuel + 1, c :: rest =>
    if c = '"' then some ([], rest)
    else if c = '\\' then
      match rest with
      | [] => none
      | e :: rest2 => (jsonStringGo fuel rest2).map fun vr => (e :: vr.1, vr.2)
    else (jsonStringGo fuel rest).map fun vr => (c :: vr.1, vr.2)

/-- Non-empty comma-separated list of JSON strings followed by `]`. -/
def jsonElemsGo : Nat → List Char → Option (List String × List Char)
  | 0, _ => none
  | fuel + 1, l =>
    match l.dropWhile jsonWs with
    | '"' :: rest =>
      match jsonStringGo rest.length rest with
      | none => none
      | some (v, r) =>
        match r.dropWhile jsonWs with
        | ',' :: r2 => (jsonElemsGo fuel r2).map fun vr => (String.mk v :: vr.1, vr.2)
        | ']' :: r2 => some ([String.mk v], r2)
        | _ => none
    | _ => none

/-- Recognizer for the only `json.loads` payload shape that
`_llm_extract_topics` accepts: a JSON array whose elements are all
strings. Any other parse result and any parse failure lead to the same
empty-list return in the source, so both map to `none` here. -/
def jsonStrings? (s : String) : Option (List String) :=
  match s.data.dropWhile jsonWs with
  | '[' :: rest =>
    match rest.dropWhile jsonWs with
    | ']' :: r2 => if (r2.dropWhile jsonWs).isEmpty then some [] else none
    | _ =>
      match jsonElemsGo rest.length rest with
      | some (vs, r) => if (r.dropWhile jsonWs).isEmpty then some vs else none
      | none => none
  | _ => none

/-- The `_llm_extract_topics` system prompt. -/
def llmTopicsSystemPrompt : String :=
  "You are a query analyzer for a RAG system.\n" ++
  "Extract key search topics from the user\x27s query.\n" ++
  "Return a JSON array of 1-5 search topics (strings).\n\n" ++
  "Examples:\nQuery: \"What is the Q3 cloud budget?\"\n" ++
  "Output: [\"Q3 cloud budget\", \"quarterly cloud spending\"]\n\n" ++
  "Query: \"Compare AWS vs Azure pricing\"\n" ++
  "Output: [\"AWS pricing\", \"Azure pricing\"]\n\n" ++
  "Query: \"Tell me about the new feature\"\n" ++
  "Output: [\"new feature\"]\n\n" ++
  "Return ONLY the JSON array, no explanation."

/-- `ROMAOrchestrator._llm_extract_topics`, parameterized by the
generation port: on port failure or a payload that is not a JSON array
of strings, the empty list (degrading silently); otherwise the topics
truncated to 5. -/
def llm_extract_topics (gen : String → String → Except AgentFailure String)
    (query : String) : List String :=
  match gen s!"Query: {query}\nOutput:" llmTopicsSystemPrompt with
  | .error _ => []
  | .ok result =>
    match jsonStrings? (pyStrip result) with
    | some topics => topics.take 5
    | none => []

/-- `\band\b|\bvs\b|\bversus\b` (IGNORECASE), the `re.split` separator of
the fallback path, with `re`'s alternation order. -/
def matchSplitKw : ReMatcher := fun prev l =>
  if notWordOpt prev then
    match (pLit "and".data l).bind fun r =>
        if notWordOpt r.head? then some (l.length - r.length) else none with
    | some n => some n
    | none =>
      match (pLit "vs".data l).bind fun r =>
          if notWordOpt r.head? then some (l.length - r.length) else none with
      | some n => some n
      | none =>
        (pLit "versus".data l).bind fun r =>
        if notWordOpt r.head? then some (l.length - r.length) else none
  else none

/-- `re.split(pattern, s)` for a group-free pattern: the segments between
non-overlapping matches. Fuel is the input length; every step consumes
at least one character. -/
def reSplitGo (matchAt : ReMatcher) : Nat → Option Char → List Char → List Char → List String
  | 0, _, acc, l => [String.mk (acc.reverse ++ l)]
  | _ + 1, _, acc, [] => [String.mk acc.reverse]
  | fuel + 1, prev, acc, c :: rest =>
    match matchAt prev (c :: rest) with
    | some (n + 1) =>
      let matched := (c :: rest).take (n + 1)
      String.mk acc.reverse ::
        reSplitGo matchAt fuel matched.getLast? [] ((c :: rest).drop (n + 1))
    | _ => reSplitGo matchAt fuel (some c) (c :: acc) rest

/-- `re.split(r"\band\b|\bvs\b|\bversus\b", query, flags=re.IGNORECASE)`. -/
def reSplit (matchAt : ReMatcher) (s : String) : List String :=
  reSplitGo matchAt s.data.length none [] s.data

/-- `re.sub(r"^(compare|versus|vs)\s+", "", part, flags=re.IGNORECASE)`
(anchored, so at most one replacement; `re`'s alternation order). -/
def stripLeadingCompareVerb (part : String) : String :=
  let l := part.data
  match (pLit "compare".data l).bind pWs1 with
  | some r => String.mk r
  | none =>
    match (pLit "versus".data l).bind pWs1 with
    | some r => String.mk r
    | none =>
      match (pLit "vs".data l).bind pWs1 with
      | some r => String.mk r
      | none => part

/-- The deterministic fallback of `_extract_topics` (source lines
424-437): gate on the substrings `"compare"`, `" vs "`, `" versus "` in
the lowercased query; split on word-bounded `and`/`vs`/`versus`; strip
leading comparison verbs; drop empty parts; truncate to 5. -/
def topicsFallback (query : String) : List String :=
  let lowered := pyLower query
  if !(strContains lowered "compare" || strContains lowered " vs " ||
      strContains lowered " versus ") then []
  else
    let parts := reSplit matchSplitKw query
    let topics := parts.filterMap fun part =>
      let cleaned := stripLeadingCompareVerb (pyStrip part)
      if cleaned = "" then none else some cleaned
    topics.take 5

/-- `ROMAOrchestrator._extract_topics`. -/
def extract_topics (gen : String → String → Except AgentFailure String)
    (query : String) : List String :=
  let llmTopics := llm_extract_topics gen query
  if !llmTopics.isEmpty then llmTopics else topicsFallback query

/-! ## Summary-mode helpers and the verifier (`orchestrator.py`) -/

/-- `ROMAOrchestrator._is_summary_query`. -/
def is_summary_query (query : String) : Bool :=
  let lowered := pyLower query
  strContains lowered "summarize" || strContains lowered "summary" ||
  strContains lowered "overview" || strContains lowered "high-level" ||
  strContains lowered "tl;dr" || strContains lowered "tldr"

/-- `_summary_formatting_instructions`. -/
def summary_formatting_instructions : String :=
  "Provide a concise summary with 4-6 bullet points plus a one-sentence " ++
  "overview. Cite at least 3 distinct chunks when available."

/-- Cardinality of a Python set built from a list of strings. -/
def countDistinct (l : List String) : Nat :=
  (l.foldl (fun acc s => if s ∈ acc then acc else s :: acc) []).length

/-- `_summary_min_citations`: distinct normalized contents over contexts
whose content is non-empty and not whitespace-only; the Python `or`
falls back to `len(contexts)` when that count is zero. -/
def summary_min_citations (contexts : List RetrievedContext) : Nat :=
  let unique_content := countDistinct
    ((contexts.filter fun c => c.content ≠ "" && pyStrip c.content ≠ "").map
      fun c => normalizeContent c.content)
  let unique_count := if unique_content = 0 then contexts.length else unique_content
  max 1 (min 3 unique_count)

/-- `ROMAOrchestrator._verify_tailor_output` (raising becomes
`Except.error`; the failure's `details["invalid_chunks"]` is the
`details` list). -/
def verify_tailor_output (response : TailorOutput) (contexts : List RetrievedContext)
    (min_citations : Nat) : Except AgentFailure Unit :=
  if response.citations.isEmpty || response.citations.length < min_citations then
    .error ⟨"orchestrator.verifier", ErrorCodes.tailorHallucination,
      "Verifier rejected response: insufficient citations.", true, []⟩
  else
    let available_ids := contexts.map (·.chunk_id)
    let invalid :=
      (response.citations.filter fun c => !(available_ids.contains c.chunk_id)).map
        (·.chunk_id)
    if invalid.isEmpty then .ok ()
    else
      .error ⟨"orchestrator.verifier", ErrorCodes.tailorHallucination,
        "Verifier rejected response: citation out of context.", true, invalid⟩

/-! Decidable equality for `Except`, used to evaluate concrete runs. -/

deriving instance DecidableEq for Except

/-! ## Orchestrator (`src/app/agents/orchestrator.py`) -/

/-- `MAX_ROMA_DEPTH`. -/
def MAX_ROMA_DEPTH : Nat := 5

/-- One mutation of the plan ledger: `_add_plan_step` appends a step;
`step.status = s` assigns a status to the step with the given id. -/
inductive PlanEvent
  | add (description tool_call : String) (status : PlanStatus)
  | set (sid : Nat) (status : PlanStatus)
deriving DecidableEq, Repr

/-- Discriminator for `add` events. -/
def isAddEvent : PlanEvent → Bool
  | .add _ _ _ => true
  | .set _ _ => false

/-- Number of `add` events so far (the ledger length). -/
def addCount (evs : List PlanEvent) : Nat := evs.countP isAddEvent

/-- Effect of one plan event on the ledger: `_add_plan_step` appends
`PlanStep(step_id=len(plan)+1, …)`, a status assignment mutates the step
with that id in place. -/
def applyEvent (plan : List PlanStep) : PlanEvent → List PlanStep
  | .add d t s => plan ++ [⟨plan.length + 1, d, t, s⟩]
  | .set sid s => plan.map fun st => if st.step_id = sid then { st with status := s } else st

/-- Fold a tail of the event log into a ledger value. -/
def replayAux (plan : List PlanStep) (evs : List PlanEvent) : List PlanStep :=
  evs.foldl applyEvent plan

/-- Fold the event log into the ledger value (`self._plan`). -/
def replayPlan (evs : List PlanEvent) : List PlanStep :=
  replayAux [] evs

/-- `_add_plan_step`: returns the new step's id and the extended log. -/
def emitAdd (σ : List PlanEvent) (d t : String) (s : PlanStatus) : Nat × List PlanEvent :=
  (addCount σ + 1, σ ++ [.add d t s])

/-- A `step.status = s` assignment. -/
def emitSet (σ : List PlanEvent) (sid : Nat) (s : PlanStatus) : List PlanEvent :=
  σ ++ [.set sid s]

/-- The injected collaborators of `ROMAOrchestrator.__init__`:
`guardrails.enforce`, `memory_agent.query`, `tailor_agent.process`,
`tailor_agent.stream_response` (a finite token sequence, `AgentFailure`
elements included), `tailor_agent.finalize_streamed_output`, and
`llm_service.generate` (prompt × system → text). The concrete agents of
the repository instantiate them with `guardrailsEnforce`,
`tailor_process gen` and `finalize_streamed_output`. -/
structure Ports where
  guardrails : GuardrailsInput → GuardrailsOutput ⊕ AgentFailure
  memory : MemoryQuery → MemoryOutput ⊕ AgentFailure
  tailorProcess : TailorInput → Except AgentFailure TailorOutput
  tailorStream : TailorInput → List (String ⊕ AgentFailure)
  tailorFinalize : TailorInput → String → Except AgentFailure TailorOutput
  gen : String → String → Except AgentFailure String

/-- `ROMAOrchestrator._apply_input_guardrails` (a raised or returned
`AgentFailure` both mark the step failed and propagate; on success the
Python `result.sanitized_content or content` truthiness picks the
original content when the sanitized text is empty). -/
def apply_input_guardrails (P : Ports) (σ : List PlanEvent) (content : String) :
    Except AgentFailure String × List PlanEvent :=
  let (sid, σ) := emitAdd σ "Guardrails validation" "guardrails.enforce" .pending
  let σ := emitSet σ sid .in_progress
  match P.guardrails ⟨content, .input_validation⟩ with
  | .inl result =>
    let σ := emitSet σ sid .completed
    (.ok (if result.sanitized_content = "" then content else result.sanitized_content), σ)
  | .inr failure =>
    let σ := emitSet σ sid .failed
    (.error failure, σ)

/-- Per-target loop of `_retrieve_contexts` (source lines 267-316).
Status-assignment events mirror the mutation order of the source: on the
abort paths the strict step is marked failed twice (lines 286/308 and
the `except` handler at line 314), and on a successful relaxed retry the
strict step is marked failed (line 286) and then overwritten to
completed by line 316. -/
def retrieveLoop (P : Ports) (attempt : Nat) (summary : Bool) (top_k : Nat) (min_score : Rat) :
    List String → List RetrievedContext → List PlanEvent →
    (List RetrievedContext × Option AgentFailure) × List PlanEvent
  | [], acc, σ => ((acc, none), σ)
  | topic :: rest, acc, σ =>
    let (sid, σ) := emitAdd σ s!"Retrieve context for \x27{topic}\x27 (attempt {attempt})"
      "memory.query" .pending
    let σ := emitSet σ sid .in_progress
    match P.memory ⟨topic, top_k, min_score⟩ with
    | .inl result =>
      let σ := emitSet σ sid .completed
      retrieveLoop P attempt summary top_k min_score rest (acc ++ result.results) σ
    | .inr failure =>
      if failure.error_code = ErrorCodes.memoryNoResults then
        let σ := emitSet σ sid .failed
        let (rid, σ) := emitAdd σ
          s!"Relax retrieval threshold for \x27{topic}\x27 (attempt {attempt})"
          "memory.query" .pending
        let σ := emitSet σ rid .in_progress
        match P.memory ⟨topic, (if summary then 18 else 8), (if summary then 0.2 else 0.3)⟩ with
        | .inr f2 =>
          let σ := emitSet σ rid .failed
          let σ := emitSet σ sid .failed
          (([], some f2), σ)
        | .inl relaxed =>
          let σ := emitSet σ rid .completed
          let σ := emitSet σ sid .completed
          retrieveLoop P attempt summary top_k min_score rest (acc ++ relaxed.results) σ
      else
        let σ := emitSet σ sid .failed
        let σ := emitSet σ sid .failed
        (([], some failure), σ)

/-- `ROMAOrchestrator._retrieve_contexts`. -/
def retrieve_contexts (P : Ports) (σ : List PlanEvent) (query : String)
    (topics : List String) (attempt : Nat) (summary : Bool) :
    (List RetrievedContext × Option AgentFailure) × List PlanEvent :=
  let targets := if topics.isEmpty then [query] else topics
  retrieveLoop P attempt summary (if summary then 12 else 5)
    (if summary then 0.4 else 0.7) targets [] σ

/-- `ROMAOrchestrator._apply_output_guardrails`. -/
def apply_output_guardrails (P : Ports) (response : TailorOutput) :
    Except AgentFailure TailorOutput :=
  match P.guardrails ⟨response.content, .output_safety⟩ with
  | .inr failure => .error failure
  | .inl result =>
    if result.sanitized_content = response.content then .ok response
    else .ok { response with content := result.sanitized_content }

/-- `ROMAOrchestrator._synthesize_and_verify`. -/
def synthesize_and_verify (P : Ports) (σ : List PlanEvent) (query : String)
    (contexts : List RetrievedContext) (persona : Persona) (attempt : Nat)
    (summary : Bool) : Except AgentFailure TailorOutput × List PlanEvent :=
  let (sid, σ) := emitAdd σ s!"Verifier + Synthesize attempt {attempt}"
    "tailor.process+verifier" .pending
  let σ := emitSet σ sid .in_progress
  if contexts.isEmpty then
    let σ := emitSet σ sid .failed
    (.error ⟨"orchestrator.memory", ErrorCodes.memoryNoResults,
      "No context available after retrieval.", true, []⟩, σ)
  else
    let payload : TailorInput := ⟨query, contexts, persona,
      if summary then some summary_formatting_instructions else none⟩
    match P.tailorProcess payload with
    | .error e =>
      let σ := emitSet σ sid .failed
      (.error e, σ)
    | .ok response =>
      let min_citations := if summary then summary_min_citations contexts else 1
      match verify_tailor_output response contexts min_citations with
      | .error e =>
        let σ := emitSet σ sid .failed
        (.error e, σ)
      | .ok _ =>
        match apply_output_guardrails P response with
        | .error e =>
          let σ := emitSet σ sid .failed
          (.error e, σ)
        | .ok sanitized =>
          let σ := emitSet σ sid .completed
          (.ok sanitized, σ)

/-- The `while attempt < self._max_depth` loop of `run_query`:
`remaining = max_depth - attempt` cycles left, `attemptPrev` the number
already performed, `lastError` the accumulated last failure. On
exhaustion the source raises the *last* error when one exists and the
"timeout" failure only when none was recorded. -/
def runLoop (P : Ports) (query : String) (topics : List String) (persona : Persona)
    (summary : Bool) :
    Nat → Nat → Option AgentFailure → List PlanEvent →
    Except AgentFailure OrchestratorOutput × List PlanEvent
  | 0, _, lastError, σ =>
    match lastError with
    | none =>
      (.error ⟨"orchestrator.roma", ErrorCodes.timedOut,
        "ROMA planning exhausted without completion.", false, []⟩, σ)
    | some e => (.error e, σ)
  | remaining + 1, attemptPrev, _, σ =>
    let attempt := attemptPrev + 1
    let r := retrieve_contexts P σ query topics attempt summary
    let contexts := r.1.1
    let retrievalError := r.1.2
    let σ := r.2
    let step : (TailorOutput ⊕ AgentFailure) × List PlanEvent :=
      match retrievalError with
      | some e => (.inr e, σ)
      | none =>
        match synthesize_and_verify P σ query contexts persona attempt summary with
        | (.ok out, σ2) => (.inl out, σ2)
        | (.error e, σ2) => (.inr e, σ2)
    match step with
    | (.inl out, σ2) => (.ok ⟨out, replayPlan σ2⟩, σ2)
    | (.inr e, σ2) =>
      if !e.recoverable then (.error e, σ2)
      else
        let a1 := attempt + 1
        let ec := e.error_code
        let (_, σ3) := emitAdd σ2 s!"Retry planning iteration {a1} due to {ec}"
          "orchestrator.retry" .pending
        runLoop P query topics persona summary remaining attempt (some e) σ3

/-- `ROMAOrchestrator.run_query` (result plus the final event log; the
ledger value is `replayPlan` of the log). -/
def run_query (P : Ports) (max_depth : Nat) (request : QueryRequest) :
    Except AgentFailure OrchestratorOutput × List PlanEvent :=
  match apply_input_guardrails P [] request.text with
  | (.error e, σ) => (.error e, σ)
  | (.ok sanitized, σ) =>
    let summary := is_summary_query sanitized
    let topics := extract_topics P.gen sanitized
    runLoop P sanitized topics request.persona summary max_depth 0 none σ

/-! ## Streaming mode (`ROMAOrchestrator.stream_query`) -/

/-- Payload of a yielded event (`model_dump` of the failure/answer, or
the raw string). -/
inductive EventData
  | str (s : String)
  | failure (f : AgentFailure)
  | answer (t : TailorOutput)
deriving DecidableEq, Repr

/-- One event the generator attempts to yield. -/
structure RawEvent where
  event : String
  data : EventData
deriving DecidableEq, Repr

/-- The `StreamEvent.event` field accepts exactly the
`Literal["token", "complete"]` of `schemas/api.py` (lines 35-39). -/
def streamEventAllowed (e : String) : Bool := e = "token" || e = "complete"

/-- The `async for token in stream_response` loop: a failure element
yields one error event and stops; a token extends the accumulated text
and yields a token event. Returns the attempted events and either the
accumulated text or the failure. -/
def streamTokens : List (String ⊕ AgentFailure) → List RawEvent × Except AgentFailure String
  | [] => ([], .ok "")
  | .inr f :: _ => ([⟨"error", .failure f⟩], .error f)
  | .inl t :: rest =>
    let (evs, r) := streamTokens rest
    (⟨"token", .str t⟩ :: evs, r.map (t ++ ·))

/-- `ROMAOrchestrator.stream_query`: the sequence of events the
generator attempts to yield, in order, together with the final plan
event log. (Construction-time validation of each `StreamEvent` is
applied separately by `emitValidated`.) -/
def stream_query (P : Ports) (request : QueryRequest) : List RawEvent × List PlanEvent :=
  match apply_input_guardrails P [] request.text with
  | (.error e, σ) => ([⟨"error", .failure e⟩], σ)
  | (.ok sanitized, σ) =>
    let summary := is_summary_query sanitized
    let evs : List RawEvent := [⟨"thinking", .str "Searching knowledge base..."⟩]
    let topics := extract_topics P.gen sanitized
    match retrieve_contexts P σ sanitized topics 1 summary with
    | ((_, some e), σ) => (evs ++ [⟨"error", .failure e⟩], σ)
    | ((contexts, none), σ) =>
      if contexts.isEmpty then
        (evs ++ [⟨"error", .failure ⟨"orchestrator.memory", ErrorCodes.memoryNoResults,
          "No context available after retrieval.", true, []⟩⟩], σ)
      else
        let evs := evs ++ [⟨"thinking", .str "Generating response..."⟩]
        let tailor_input : TailorInput := ⟨sanitized, contexts, request.persona,
          if summary then some summary_formatting_instructions else none⟩
        let tk := streamTokens (P.tailorStream tailor_input)
        match tk.2 with
        | .error _ => (evs ++ tk.1, σ)
        | .ok accumulated =>
          let evs := evs ++ tk.1
          match P.tailorFinalize tailor_input accumulated with
          | .error e => (evs ++ [⟨"error", .failure e⟩], σ)
          | .ok output =>
            let min_citations := if summary then summary_min_citations contexts else 1
            match verify_tailor_output output contexts min_citations with
            | .error e => (evs ++ [⟨"error", .failure e⟩], σ)
            | .ok _ =>
              match apply_output_guardrails P output with
              | .error e => (evs ++ [⟨"error", .failure e⟩], σ)
              | .ok sanitizedOut => (evs ++ [⟨"complete", .answer sanitizedOut⟩], σ)

/-- Construction-time pydantic validation of each yielded `StreamEvent`:
the delivered events are the longest prefix whose tags the
`Literal["token", "complete"]` admits; a disallowed tag raises inside
the generator, closing the stream with no further event (the Bool
records that crash). -/
def emitValidated : List RawEvent → List RawEvent × Bool
  | [] => ([], false)
  | e :: rest =>
    if streamEventAllowed e.event then
      let (evs, crashed) := emitValidated rest
      (e :: evs, crashed)
    else ([], true)

/-! ## Ledger replay lemmas -/

theorem replayAux_append (plan : List PlanStep) (l₁ l₂ : List PlanEvent) :
    replayAux plan (l₁ ++ l₂) = replayAux (replayAux plan l₁) l₂ := by
  simp [replayAux, List.foldl_append]

theorem replayAux_cons (plan : List PlanStep) (e : PlanEvent) (evs : List PlanEvent) :
    replayAux plan (e :: evs) = replayAux (applyEvent plan e) evs := rfl

theorem replayPlan_append (σ Δ : List PlanEvent) :
    replayPlan (σ ++ Δ) = replayAux (replayPlan σ) Δ := by
  simp [replayPlan, replayAux_append]

theorem addCount_append (σ Δ : List PlanEvent) :
    addCount (σ ++ Δ) = addCount σ + addCount Δ := by
  simp [addCount, List.countP_append]

theorem length_applyEvent (plan : List PlanStep) (e : PlanEvent) :
    (applyEvent plan e).length = plan.length + (if isAddEvent e then 1 else 0) := by
  cases e <;> simp [applyEvent, isAddEvent]

theorem length_replayAux (evs : List PlanEvent) :
    ∀ plan : List PlanStep, (replayAux plan evs).length = plan.length + addCount evs := by
  induction evs with
  | nil => intro plan; simp [replayAux, addCount]
  | cons e rest ih =>
    intro plan
    rw [replayAux_cons, ih, length_applyEvent]
    simp only [addCount, List.countP_cons]
    cases e <;> simp [isAddEvent] <;> omega

theorem length_replayPlan (evs : List PlanEvent) :
    (replayPlan evs).length = addCount evs := by
  rw [replayPlan, length_replayAux]; simp

/-- The step-id update of a `set` event preserves everything but the
status. -/
theorem ids_map_set (plan : List PlanStep) (sid : Nat) (s : PlanStatus) :
    (applyEvent plan (.set sid s)).map (·.step_id) = plan.map (·.step_id) := by
  simp only [applyEvent, List.map_map]
  congr 1
  funext st
  by_cases h : st.step_id = sid <;> simp [h]

/-- Ledger step ids of a replayed log are always `1, 2, …, n` in append
order, whatever the event log. -/
theorem ids_replayAux (evs : List PlanEvent) :
    ∀ plan : List PlanStep,
      plan.map (·.step_id) = List.range' 1 plan.length →
      (replayAux plan evs).map (·.step_id) = List.range' 1 (replayAux plan evs).length := by
  induction evs with
  | nil => intro plan h; simpa [replayAux] using h
  | cons e rest ih =>
    intro plan h
    rw [replayAux_cons]
    apply ih
    cases e with
    | add d t s =>
      simp only [applyEvent, List.map_append, List.length_append, List.map_cons,
        List.map_nil, List.length_cons, List.length_nil, h]
      rw [show plan.length + (0 + 1) = plan.length + 1 by omega, List.range'_1_concat]
      simp [Nat.add_comm]
    | set sid s =>
      rw [ids_map_set]
      have hl : (applyEvent plan (.set sid s)).length = plan.length := by
        simp [applyEvent]
      rw [hl, h]

theorem replayPlan_ids (evs : List PlanEvent) :
    (replayPlan evs).map (·.step_id) = List.range' 1 (replayPlan evs).length := by
  exact ids_replayAux evs [] (by simp)

/-! ## Status histories of individual steps -/

/-- The successive status values of step `sid` recorded in the event
log, given `n` adds before this tail: its `add` status (the `add` is the
`sid`-th one) followed by each assignment to it. -/
def statusHistoryGo (sid : Nat) : Nat → List PlanEvent → List PlanStatus
  | _, [] => []
  | n, .add _ _ s :: rest =>
    (if n + 1 = sid then [s] else []) ++ statusHistoryGo sid (n + 1) rest
  | n, .set i s :: rest =>
    (if i = sid then [s] else []) ++ statusHistoryGo sid n rest

/-- Status values step `sid` goes through over a whole event log. -/
def statusHistory (sid : Nat) (evs : List PlanEvent) : List PlanStatus :=
  statusHistoryGo sid 0 evs

/-- The forward transitions of the claimed invariant
(`pending → in_progress → {completed | failed}`); re-assigning the
current value moves nothing and is included. -/
def statusForward (a b : PlanStatus) : Bool :=
  a = b || (a = .pending && b = .in_progress) ||
    (a = .in_progress && (b = .completed || b = .failed))

/-- The transitions the orchestrator actually performs: forward ones,
plus the `failed → completed` overwrite of a strict retrieval step by
line 316 after a successful relaxed retry. -/
def statusForwardAmended (a b : PlanStatus) : Bool :=
  statusForward a b || (a = .failed && b = .completed)

theorem statusHistoryGo_append (sid : Nat) (σ Δ : List PlanEvent) :
    ∀ n, statusHistoryGo sid n (σ ++ Δ) =
      statusHistoryGo sid n σ ++ statusHistoryGo sid (n + addCount σ) Δ := by
  induction σ with
  | nil => intro n; simp [statusHistoryGo, addCount]
  | cons e rest ih =>
    intro n
    cases e with
    | add d t s =>
      simp only [List.cons_append, statusHistoryGo, List.append_eq]
      rw [ih (n + 1)]
      have harith : n + 1 + addCount rest = n + addCount (PlanEvent.add d t s :: rest) := by
        simp only [addCount, List.countP_cons, isAddEvent, if_true]
        omega
      rw [harith]
      simp [List.append_assoc]
    | set i s =>
      simp only [List.cons_append, statusHistoryGo, List.append_eq]
      rw [ih n]
      have harith : n + addCount rest = n + addCount (PlanEvent.set i s :: rest) := by
        simp [addCount, List.countP_cons, isAddEvent]
      rw [harith]
      simp [List.append_assoc]

/-- Invariant of reachable event logs: only existing steps have
histories, and every history follows the (amended) forward chain. -/
def EventsOk (σ : List PlanEvent) : Prop :=
  (∀ sid, addCount σ < sid → statusHistory sid σ = []) ∧
  (∀ sid, List.Chain' (fun a b => statusForwardAmended a b = true) (statusHistory sid σ))

/-- A block of events appended after `n` existing steps: it touches only
the steps it adds, and their histories follow the (amended) chain. -/
def BlockOk (n : Nat) (Δ : List PlanEvent) : Prop :=
  (∀ sid, (sid ≤ n ∨ n + addCount Δ < sid) → statusHistoryGo sid n Δ = []) ∧
  (∀ sid, List.Chain' (fun a b => statusForwardAmended a b = true) (statusHistoryGo sid n Δ))

theorem EventsOk_nil : EventsOk [] := by
  constructor <;> intro sid <;> simp [statusHistory, statusHistoryGo]

theorem EventsOk_append {σ Δ : List PlanEvent} (h : EventsOk σ)
    (hb : BlockOk (addCount σ) Δ) : EventsOk (σ ++ Δ) := by
  have hsplit : ∀ sid, statusHistory sid (σ ++ Δ) =
      statusHistory sid σ ++ statusHistoryGo sid (addCount σ) Δ := by
    intro sid
    have := statusHistoryGo_append sid σ Δ 0
    simpa [statusHistory] using this
  constructor
  · intro sid hgt
    rw [addCount_append] at hgt
    rw [hsplit]
    have h1 : statusHistory sid σ = [] := h.1 sid (by omega)
    have h2 : statusHistoryGo sid (addCount σ) Δ = [] := hb.1 sid (Or.inr (by omega))
    simp [h1, h2]
  · intro sid
    rw [hsplit]
    by_cases hle : sid ≤ addCount σ
    · have h2 : statusHistoryGo sid (addCount σ) Δ = [] := hb.1 sid (Or.inl hle)
      simpa [h2] using h.2 sid
    · have h1 : statusHistory sid σ = [] := h.1 sid (by omega)
      simpa [h1] using hb.2 sid

/-! ## Blocks the orchestrator functions append -/

theorem BlockOk_step3 (n : Nat) (d t : String) (s : PlanStatus)
    (hs : s = .completed ∨ s = .failed) :
    BlockOk n [.add d t .pending, .set (n + 1) .in_progress, .set (n + 1) s] := by
  have hac : addCount [PlanEvent.add d t .pending, .set (n + 1) .in_progress,
      .set (n + 1) s] = 1 := by
    simp [addCount, List.countP_cons, isAddEvent]
  constructor
  · intro sid hrange
    rw [hac] at hrange
    simp only [statusHistoryGo, List.append_nil, List.nil_append]
    split_ifs <;> first | rfl | (exfalso; omega)
  · intro sid
    simp only [statusHistoryGo, List.append_nil, List.nil_append]
    rcases hs with h | h <;> subst h <;>
      (split_ifs <;> first | (exfalso; omega) |
        simp [List.chain'_cons, List.chain'_singleton, statusForwardAmended, statusForward])

theorem BlockOk_add_pending (n : Nat) (d t : String) :
    BlockOk n [.add d t .pending] := by
  have hac : addCount [PlanEvent.add d t .pending] = 1 := by
    simp [addCount, List.countP_cons, isAddEvent]
  constructor
  · intro sid hrange
    rw [hac] at hrange
    simp only [statusHistoryGo, List.append_nil, List.nil_append]
    split_ifs <;> first | rfl | (exfalso; omega)
  · intro sid
    simp only [statusHistoryGo, List.append_nil, List.nil_append]
    split_ifs <;>
      simp [List.chain'_cons, List.chain'_singleton, statusForwardAmended, statusForward]

theorem BlockOk_relax_success (n : Nat) (d1 t1 d2 t2 : String) :
    BlockOk n [.add d1 t1 .pending, .set (n + 1) .in_progress, .set (n + 1) .failed,
      .add d2 t2 .pending, .set (n + 2) .in_progress, .set (n + 2) .completed,
      .set (n + 1) .completed] := by
  have hac : addCount [PlanEvent.add d1 t1 .pending, .set (n + 1) .in_progress,
      .set (n + 1) .failed, .add d2 t2 .pending, .set (n + 2) .in_progress,
      .set (n + 2) .completed, .set (n + 1) .completed] = 2 := by
    simp [addCount, List.countP_cons, isAddEvent]
  constructor
  · intro sid hrange
    rw [hac] at hrange
    simp only [statusHistoryGo, List.append_nil, List.nil_append]
    split_ifs <;> first | rfl | (exfalso; omega)
  · intro sid
    simp only [statusHistoryGo, List.append_nil, List.nil_append]
    split_ifs <;> first | (exfalso; omega) |
      simp [List.chain'_cons, List.chain'_singleton, statusForwardAmended, statusForward]

theorem BlockOk_abort_other (n : Nat) (d t : String) :
    BlockOk n [.add d t .pending, .set (n + 1) .in_progress, .set (n + 1) .failed,
      .set (n + 1) .failed] := by
  have hac : addCount [PlanEvent.add d t .pending, .set (n + 1) .in_progress,
      .set (n + 1) .failed, .set (n + 1) .failed] = 1 := by
    simp [addCount, List.countP_cons, isAddEvent]
  constructor
  · intro sid hrange
    rw [hac] at hrange
    simp only [statusHistoryGo, List.append_nil, List.nil_append]
    split_ifs <;> first | rfl | (exfalso; omega)
  · intro sid
    simp only [statusHistoryGo, List.append_nil, List.nil_append]
    split_ifs <;> first | (exfalso; omega) |
      simp [List.chain'_cons, List.chain'_singleton, statusForwardAmended, statusForward]

theorem BlockOk_relax_fail (n : Nat) (d1 t1 d2 t2 : String) :
    BlockOk n [.add d1 t1 .pending, .set (n + 1) .in_progress, .set (n + 1) .failed,
      .add d2 t2 .pending, .set (n + 2) .in_progress, .set (n + 2) .failed,
      .set (n + 1) .failed] := by
  have hac : addCount [PlanEvent.add d1 t1 .pending, .set (n + 1) .in_progress,
      .set (n + 1) .failed, .add d2 t2 .pending, .set (n + 2) .in_progress,
      .set (n + 2) .failed, .set (n + 1) .failed] = 2 := by
    simp [addCount, List.countP_cons, isAddEvent]
  constructor
  · intro sid hrange
    rw [hac] at hrange
    simp only [statusHistoryGo, List.append_nil, List.nil_append]
    split_ifs <;> first | rfl | (exfalso; omega)
  · intro sid
    simp only [statusHistoryGo, List.append_nil, List.nil_append]
    split_ifs <;> first | (exfalso; omega) |
      simp [List.chain'_cons, List.chain'_singleton, statusForwardAmended, statusForward]

/-! ## The orchestrator preserves the history invariant -/

theorem EventsOk_apply_input_guardrails (P : Ports) (σ : List PlanEvent) (content : String)
    (h : EventsOk σ) : EventsOk (apply_input_guardrails P σ content).2 := by
  unfold apply_input_guardrails emitAdd emitSet
  cases hg : P.guardrails ⟨content, .input_validation⟩ with
  | inl result =>
    simp only [hg]
    have hassoc : σ ++ [PlanEvent.add "Guardrails validation" "guardrails.enforce" .pending] ++
        [PlanEvent.set (addCount σ + 1) .in_progress] ++
        [PlanEvent.set (addCount σ + 1) .completed] =
        σ ++ [PlanEvent.add "Guardrails validation" "guardrails.enforce" .pending,
          .set (addCount σ + 1) .in_progress, .set (addCount σ + 1) .completed] := by
      simp [List.append_assoc]
    rw [hassoc]
    exact EventsOk_append h (BlockOk_step3 (addCount σ) _ _ _ (Or.inl rfl))
  | inr failure =>
    simp only [hg]
    have hassoc : σ ++ [PlanEvent.add "Guardrails validation" "guardrails.enforce" .pending] ++
        [PlanEvent.set (addCount σ + 1) .in_progress] ++
        [PlanEvent.set (addCount σ + 1) .failed] =
        σ ++ [PlanEvent.add "Guardrails validation" "guardrails.enforce" .pending,
          .set (addCount σ + 1) .in_progress, .set (addCount σ + 1) .failed] := by
      simp [List.append_assoc]
    rw [hassoc]
    exact EventsOk_append h (BlockOk_step3 (addCount σ) _ _ _ (Or.inr rfl))

theorem EventsOk_retrieveLoop (P : Ports) (attempt : Nat) (summary : Bool)
    (top_k : Nat) (min_score : Rat) :
    ∀ (targets : List String) (acc : List RetrievedContext) (σ : List PlanEvent),
      EventsOk σ →
      EventsOk (retrieveLoop P attempt summary top_k min_score targets acc σ).2 := by
  intro targets
  induction targets with
  | nil => intro acc σ h; simpa [retrieveLoop] using h
  | cons topic rest ih =>
    intro acc σ h
    unfold retrieveLoop emitAdd emitSet
    cases hm : P.memory ⟨topic, top_k, min_score⟩ with
    | inl result =>
      simp only [hm]
      apply ih
      have hassoc : σ ++ [PlanEvent.add
            s!"Retrieve context for \x27{topic}\x27 (attempt {attempt})"
            "memory.query" .pending] ++
          [PlanEvent.set (addCount σ + 1) .in_progress] ++
          [PlanEvent.set (addCount σ + 1) .completed] =
          σ ++ [PlanEvent.add
              s!"Retrieve context for \x27{topic}\x27 (attempt {attempt})"
              "memory.query" .pending,
            .set (addCount σ + 1) .in_progress, .set (addCount σ + 1) .completed] := by
        simp [List.append_assoc]
      rw [hassoc]
      exact EventsOk_append h (BlockOk_step3 (addCount σ) _ _ _ (Or.inl rfl))
    | inr failure =>
      simp only [hm]
      by_cases hcode : failure.error_code = ErrorCodes.memoryNoResults
      · rw [if_pos hcode]
        have hcount : addCount (σ ++ [PlanEvent.add
            s!"Retrieve context for \x27{topic}\x27 (attempt {attempt})"
            "memory.query" .pending] ++ [PlanEvent.set (addCount σ + 1) .in_progress] ++
            [PlanEvent.set (addCount σ + 1) .failed]) = addCount σ + 1 := by
          simp [addCount_append, addCount, List.countP_cons, isAddEvent]
        cases hm2 : P.memory ⟨topic, (if summary then 18 else 8),
            (if summary then (0.2 : Rat) else (0.3 : Rat))⟩ with
        | inr f2 =>
          simp only [hm2, hcount]
          have hassoc : σ ++ [PlanEvent.add
                s!"Retrieve context for \x27{topic}\x27 (attempt {attempt})"
                "memory.query" .pending] ++
              [PlanEvent.set (addCount σ + 1) .in_progress] ++
              [PlanEvent.set (addCount σ + 1) .failed] ++
              [PlanEvent.add
                s!"Relax retrieval threshold for \x27{topic}\x27 (attempt {attempt})"
                "memory.query" .pending] ++
              [PlanEvent.set (addCount σ + 1 + 1) .in_progress] ++
              [PlanEvent.set (addCount σ + 1 + 1) .failed] ++
              [PlanEvent.set (addCount σ + 1) .failed] =
              σ ++ [PlanEvent.add
                  s!"Retrieve context for \x27{topic}\x27 (attempt {attempt})"
                  "memory.query" .pending,
                .set (addCount σ + 1) .in_progress, .set (addCount σ + 1) .failed,
                .add s!"Relax retrieval threshold for \x27{topic}\x27 (attempt {attempt})"
                  "memory.query" .pending,
                .set (addCount σ + 1 + 1) .in_progress, .set (addCount σ + 1 + 1) .failed,
                .set (addCount σ + 1) .failed] := by
            simp [List.append_assoc]
          rw [hassoc]
          exact EventsOk_append h (BlockOk_relax_fail (addCount σ) _ _ _ _)
        | inl relaxed =>
          simp only [hm2, hcount]
          apply ih
          have hassoc : σ ++ [PlanEvent.add
                s!"Retrieve context for \x27{topic}\x27 (attempt {attempt})"
                "memory.query" .pending] ++
              [PlanEvent.set (addCount σ + 1) .in_progress] ++
              [PlanEvent.set (addCount σ + 1) .failed] ++
              [PlanEvent.add
                s!"Relax retrieval threshold for \x27{topic}\x27 (attempt {attempt})"
                "memory.query" .pending] ++
              [PlanEvent.set (addCount σ + 1 + 1) .in_progress] ++
              [PlanEvent.set (addCount σ + 1 + 1) .completed] ++
              [PlanEvent.set (addCount σ + 1) .completed] =
              σ ++ [PlanEvent.add
                  s!"Retrieve context for \x27{topic}\x27 (attempt {attempt})"
                  "memory.query" .pending,
                .set (addCount σ + 1) .in_progress, .set (addCount σ + 1) .failed,
                .add s!"Relax retrieval threshold for \x27{topic}\x27 (attempt {attempt})"
                  "memory.query" .pending,
                .set (addCount σ + 1 + 1) .in_progress, .set (addCount σ + 1 + 1) .completed,
                .set (addCount σ + 1) .completed] := by
            simp [List.append_assoc]
          rw [hassoc]
          exact EventsOk_append h (BlockOk_relax_success (addCount σ) _ _ _ _)
      · rw [if_neg hcode]
        have hassoc : σ ++ [PlanEvent.add
              s!"Retrieve context for \x27{topic}\x27 (attempt {attempt})"
              "memory.query" .pending] ++
            [PlanEvent.set (addCount σ + 1) .in_progress] ++
            [PlanEvent.set (addCount σ + 1) .failed] ++
            [PlanEvent.set (addCount σ + 1) .failed] =
            σ ++ [PlanEvent.add
                s!"Retrieve context for \x27{topic}\x27 (attempt {attempt})"
                "memory.query" .pending,
              .set (addCount σ + 1) .in_progress, .set (addCount σ + 1) .failed,
              .set (addCount σ + 1) .failed] := by
          simp [List.append_assoc]
        rw [hassoc]
        exact EventsOk_append h (BlockOk_abort_other (addCount σ) _ _)

theorem EventsOk_retrieve_contexts (P : Ports) (σ : List PlanEvent) (query : String)
    (topics : List String) (attempt : Nat) (summary : Bool) (h : EventsOk σ) :
    EventsOk (retrieve_contexts P σ query topics attempt summary).2 := by
  unfold retrieve_contexts
  exact EventsOk_retrieveLoop P attempt summary _ _ _ [] σ h

theorem EventsOk_synthesize_and_verify (P : Ports) (σ : List PlanEvent) (query : String)
    (contexts : List RetrievedContext) (persona : Persona) (attempt : Nat) (summary : Bool)
    (h : EventsOk σ) :
    EventsOk (synthesize_and_verify P σ query contexts persona attempt summary).2 := by
  have key : ∀ s : PlanStatus, s = .completed ∨ s = .failed →
      EventsOk (σ ++ [PlanEvent.add s!"Verifier + Synthesize attempt {attempt}"
        "tailor.process+verifier" .pending] ++
        [PlanEvent.set (addCount σ + 1) .in_progress] ++
        [PlanEvent.set (addCount σ + 1) s]) := by
    intro s hs
    have hassoc : σ ++ [PlanEvent.add s!"Verifier + Synthesize attempt {attempt}"
          "tailor.process+verifier" .pending] ++
        [PlanEvent.set (addCount σ + 1) .in_progress] ++
        [PlanEvent.set (addCount σ + 1) s] =
        σ ++ [PlanEvent.add s!"Verifier + Synthesize attempt {attempt}"
            "tailor.process+verifier" .pending,
          .set (addCount σ + 1) .in_progress, .set (addCount σ + 1) s] := by
      simp [List.append_assoc]
    rw [hassoc]
    exact EventsOk_append h (BlockOk_step3 (addCount σ) _ _ _ hs)
  unfold synthesize_and_verify emitAdd emitSet
  by_cases hempty : contexts.isEmpty
  · simp only [hempty, if_true]
    exact key _ (Or.inr rfl)
  · simp only [hempty, if_false, Bool.false_eq_true]
    cases ht : P.tailorProcess ⟨query, contexts, persona,
        if summary then some summary_formatting_instructions else none⟩ with
    | error e => simp only [ht]; exact key _ (Or.inr rfl)
    | ok response =>
      simp only [ht]
      cases hv : verify_tailor_output response contexts
          (if summary then summary_min_citations contexts else 1) with
      | error e => simp only [hv]; exact key _ (Or.inr rfl)
      | ok u =>
        simp only [hv]
        cases hg : apply_output_guardrails P response with
        | error e => simp only [hg]; exact key _ (Or.inr rfl)
        | ok sanitized => simp only [hg]; exact key _ (Or.inl rfl)

theorem EventsOk_runLoop (P : Ports) (query : String) (topics : List String)
    (persona : Persona) (summary : Bool) :
    ∀ (remaining attemptPrev : Nat) (lastError : Option AgentFailure) (σ : List PlanEvent),
      EventsOk σ →
      EventsOk (runLoop P query topics persona summary remaining attemptPrev lastError σ).2 := by
  intro remaining
  induction remaining with
  | zero =>
    intro attemptPrev lastError σ h
    cases lastError <;> simpa [runLoop] using h
  | succ rem ih =>
    intro attemptPrev lastError σ h
    unfold runLoop
    have hr := EventsOk_retrieve_contexts P σ query topics (attemptPrev + 1) summary h
    cases hre : (retrieve_contexts P σ query topics (attemptPrev + 1) summary).1.2 with
    | some e =>
      simp only [hre]
      by_cases hrec : e.recoverable
      · simp only [hrec, Bool.not_true, if_false, Bool.false_eq_true]
        apply ih
        unfold emitAdd
        exact EventsOk_append hr (BlockOk_add_pending _ _ _)
      · simp only [Bool.not_eq_true] at hrec
        simp only [hrec, Bool.not_false, if_true]
        exact hr
    | none =>
      simp only [hre]
      have hs := EventsOk_synthesize_and_verify P
        (retrieve_contexts P σ query topics (attemptPrev + 1) summary).2 query
        (retrieve_contexts P σ query topics (attemptPrev + 1) summary).1.1 persona
        (attemptPrev + 1) summary hr
      cases hsy : synthesize_and_verify P
          (retrieve_contexts P σ query topics (attemptPrev + 1) summary).2 query
          (retrieve_contexts P σ query topics (attemptPrev + 1) summary).1.1 persona
          (attemptPrev + 1) summary with
      | mk res σ2 =>
        cases res with
        | ok out =>
          simp only [hsy]
          rw [hsy] at hs
          exact hs
        | error e =>
          simp only [hsy]
          rw [hsy] at hs
          by_cases hrec : e.recoverable
          · simp only [hrec, Bool.not_true, if_false, Bool.false_eq_true]
            apply ih
            unfold emitAdd
            exact EventsOk_append hs (BlockOk_add_pending _ _ _)
          · simp only [Bool.not_eq_true] at hrec
            simp only [hrec, Bool.not_false, if_true]
            exact hs

theorem EventsOk_run_query (P : Ports) (max_depth : Nat) (request : QueryRequest) :
    EventsOk (run_query P max_depth request).2 := by
  unfold run_query
  have hg := EventsOk_apply_input_guardrails P [] request.text EventsOk_nil
  cases hga : apply_input_guardrails P [] request.text with
  | mk res σ =>
    rw [hga] at hg
    cases res with
    | error e => simp only [hga]; exact hg
    | ok sanitized =>
      simp only [hga]
      exact EventsOk_runLoop P sanitized (extract_topics P.gen sanitized) request.persona
        (is_summary_query sanitized) max_depth 0 none σ hg

theorem EventsOk_stream_query (P : Ports) (request : QueryRequest) :
    EventsOk (stream_query P request).2 := by
  unfold stream_query
  have hg := EventsOk_apply_input_guardrails P [] request.text EventsOk_nil
  cases hga : apply_input_guardrails P [] request.text with
  | mk res σ =>
    rw [hga] at hg
    cases res with
    | error e => simp only [hga]; exact hg
    | ok sanitized =>
      simp only [hga]
      have hr := EventsOk_retrieve_contexts P σ sanitized
        (extract_topics P.gen sanitized) 1 (is_summary_query sanitized) hg
      cases hre : retrieve_contexts P σ sanitized (extract_topics P.gen sanitized) 1
          (is_summary_query sanitized) with
      | mk rr σ2 =>
        rw [hre] at hr
        cases rr with
        | mk contexts rerr =>
          cases rerr with
          | some e => simp only [hre]; exact hr
          | none =>
            simp only [hre]
            by_cases hempty : contexts.isEmpty
            · simp only [hempty, if_true]; exact hr
            · simp only [hempty, if_false, Bool.false_eq_true]
              cases hstream : (streamTokens (P.tailorStream ⟨sanitized, contexts,
                  request.persona, if is_summary_query sanitized then
                    some summary_formatting_instructions else none⟩)).2 with
              | error e => simp only [hstream]; exact hr
              | ok accumulated =>
                simp only [hstream]
                cases hfin : P.tailorFinalize ⟨sanitized, contexts, request.persona,
                    if is_summary_query sanitized then
                      some summary_formatting_instructions else none⟩ accumulated with
                | error e => simp only [hfin]; exact hr
                | ok output =>
                  simp only [hfin]
                  cases hv : verify_tailor_output output contexts
                      (if is_summary_query sanitized then summary_min_citations contexts
                        else 1) with
                  | error e => simp only [hv]; exact hr
                  | ok u =>
                    simp only [hv]
                    cases hog : apply_output_guardrails P output with
                    | error e => simp only [hog]; exact hr
                    | ok s => simp only [hog]; exact hr

/-! ## Append-only ledger growth -/

/-- The identity of a step: everything except its mutable status. -/
def stepKey (st : PlanStep) : Nat × String × String :=
  (st.step_id, st.description, st.tool_call)

theorem applyEvent_key (plan : List PlanStep) (e : PlanEvent) :
    (applyEvent plan e).map stepKey = plan.map stepKey ∨
    ∃ k, (applyEvent plan e).map stepKey = plan.map stepKey ++ [k] := by
  cases e with
  | add d t s =>
    exact Or.inr ⟨stepKey ⟨plan.length + 1, d, t, s⟩, by simp [applyEvent]⟩
  | set sid s =>
    left
    simp only [applyEvent, List.map_map]
    congr 1
    funext st
    by_cases h : st.step_id = sid <;> simp [h, stepKey]

theorem replayAux_key_prefix (evs : List PlanEvent) :
    ∀ plan : List PlanStep, plan.map stepKey <+: (replayAux plan evs).map stepKey := by
  induction evs with
  | nil => intro plan; simp [replayAux]
  | cons e rest ih =>
    intro plan
    rw [replayAux_cons]
    refine List.IsPrefix.trans ?_ (ih (applyEvent plan e))
    rcases applyEvent_key plan e with h | ⟨k, h⟩
    · rw [h]
    · rw [h]; exact ⟨[k], rfl⟩

/-- The ledger only ever grows by appending: the step identities of any
replayed prefix of the event log form a prefix of the final step
identities (no removal, no reordering). -/
theorem replayPlan_take_prefix (σ : List PlanEvent) (k : Nat) :
    (replayPlan (σ.take k)).map stepKey <+: (replayPlan σ).map stepKey := by
  conv_rhs => rw [show σ = σ.take k ++ σ.drop k by simp]
  rw [replayPlan_append]
  exact replayAux_key_prefix (σ.drop k) (replayPlan (σ.take k))

/-! ## Counting and updating ledger steps -/

/-- Number of ledger steps carrying a given `tool_call`. -/
def toolCallCount (t : String) (plan : List PlanStep) : Nat :=
  plan.countP fun st => st.tool_call == t

/-- Number of `add` events carrying a given `tool_call`. -/
def addToolCount (t : String) (evs : List PlanEvent) : Nat :=
  evs.countP fun e => match e with | .add _ tc _ => tc == t | .set _ _ => false

theorem toolCallCount_replayAux (t : String) (evs : List PlanEvent) :
    ∀ plan : List PlanStep,
      toolCallCount t (replayAux plan evs) = toolCallCount t plan + addToolCount t evs := by
  induction evs with
  | nil => intro plan; simp [replayAux, addToolCount]
  | cons e rest ih =>
    intro plan
    rw [replayAux_cons, ih (applyEvent plan e)]
    cases e with
    | add d tc s =>
      have hstep : toolCallCount t (applyEvent plan (.add d tc s)) =
          toolCallCount t plan + (if tc == t then 1 else 0) := by
        simp [applyEvent, toolCallCount, List.countP_append, List.countP_cons]
      rw [hstep]
      simp only [addToolCount, List.countP_cons]
      split_ifs <;> simp_all <;> omega
    | set sid s =>
      have hstep : toolCallCount t (applyEvent plan (.set sid s)) = toolCallCount t plan := by
        simp only [applyEvent, toolCallCount, List.countP_map]
        apply List.countP_congr
        intro st _
        by_cases h : st.step_id = sid <;> simp [h]
      rw [hstep]
      simp [addToolCount, List.countP_cons]

theorem toolCallCount_replayPlan (t : String) (evs : List PlanEvent) :
    toolCallCount t (replayPlan evs) = addToolCount t evs := by
  rw [replayPlan, toolCallCount_replayAux]
  simp [toolCallCount]

theorem addToolCount_append (t : String) (σ Δ : List PlanEvent) :
    addToolCount t (σ ++ Δ) = addToolCount t σ + addToolCount t Δ := by
  simp [addToolCount, List.countP_append]

/-- A `set` targeting the id of the last, just-appended step updates
exactly that step. -/
theorem applyEvent_set_last (plan : List PlanStep) (st : PlanStep) (s : PlanStatus)
    (h : ∀ x ∈ plan, x.step_id ≠ st.step_id) :
    applyEvent (plan ++ [st]) (.set st.step_id s) = plan ++ [{ st with status := s }] := by
  simp only [applyEvent, List.map_append]
  have h1 : plan.map (fun x => if x.step_id = st.step_id then { x with status := s } else x)
      = plan := by
    conv_rhs => rw [show plan = plan.map id from (List.map_id plan).symm]
    apply List.map_congr_left
    intro x hx
    simp [h x hx]
  rw [h1]
  simp

/-- All ids in a replayed ledger are at most the number of adds. -/
theorem replayPlan_id_le (evs : List PlanEvent) (st : PlanStep)
    (h : st ∈ replayPlan evs) : st.step_id ≤ addCount evs := by
  have hids := replayPlan_ids evs
  have hmem : st.step_id ∈ (replayPlan evs).map (·.step_id) := List.mem_map_of_mem _ h
  rw [hids] at hmem
  rw [← length_replayPlan evs]
  have := List.mem_range'_1.mp hmem
  omega

/-! ## Concrete fixtures used by witnesses and counterexamples -/

/-- A retrieved chunk as the unit tests build it. -/
def ctxAlpha : RetrievedContext :=
  ⟨"chunk-1", "Alpha launches in May.", "doc-alpha", none, 1⟩

/-- The "no results" recoverable failure the Memory agent reports. -/
def noResultsFailure : AgentFailure :=
  ⟨"memory", ErrorCodes.memoryNoResults, "No relevant chunks", true, []⟩

/-- Deterministic collaborators: pattern guardrails, a one-chunk memory,
the real tailor over a mock generation port, a topic extractor whose LLM
returns `[]`. -/
def okPorts : Ports where
  guardrails := guardrailsEnforce
  memory := fun _ => .inl ⟨[ctxAlpha], 1⟩
  tailorProcess := tailor_process fun _ _ => .ok "Mock answer [1]"
  tailorStream := fun _ => [.inl "Mock ", .inl "stream [1]."]
  tailorFinalize := finalize_streamed_output
  gen := fun _ _ => .ok "[]"

/-! ## C3 — PII on the output path -/

/-- Claim C3, counterexample: a content string in which only PII is
detected (an SSN), checked with `check_type = output_safety`, makes
`enforce` return an `AgentFailure` (code `ERR_GUARDRAIL_UNSAFE`,
non-recoverable) — not a success with redacted content as the claim
states. -/
theorem claim_C3_counterexample :
    (guardrailsScan ⟨"My SSN is 123-45-6789", .output_safety⟩).risk_category
        = some .pii ∧
    guardrailsEnforce ⟨"My SSN is 123-45-6789", .output_safety⟩ =
      .inr ⟨"guardrails", ErrorCodes.guardrailUnsafe,
        "Unsafe content detected; guardrails blocked the payload.", false, []⟩ := by
  constructor
  · decide
  · decide

theorem guardrailsScan_sanitized (p : GuardrailsInput) :
    (guardrailsScan p).sanitized_content = (sanitize_pii p.content).1 := by
  cases h1 : matchAny injectionPatterns p.content with
  | some m => simp [guardrailsScan, h1]
  | none =>
    cases h2 : containsKeyword p.content hateKeywords with
    | some kw => simp [guardrailsScan, h1, h2]
    | none =>
      cases h3 : matchAny maliciousPatterns p.content with
      | some m => simp [guardrailsScan, h1, h2, h3]
      | none =>
        by_cases h4 : (sanitize_pii p.content).2.isEmpty <;>
          simp [guardrailsScan, h1, h2, h3, h4]

/-- Claim C3, amended: on `output_safety` *any* detected risk category —
PII included — yields a non-recoverable `AgentFailure` (code
`ERR_GUARDRAIL_INJECTION` for injection, `ERR_GUARDRAIL_UNSAFE`
otherwise) that blocks the answer; a PII-only finding is treated as
success with redacted content only on `input_validation`. -/
theorem claim_C3 (content : String) :
    ((guardrailsScan ⟨content, .output_safety⟩).risk_category ≠ none →
      ∃ f, guardrailsEnforce ⟨content, .output_safety⟩ = .inr f ∧
        f.recoverable = false ∧
        f.error_code = (if (guardrailsScan ⟨content, .output_safety⟩).risk_category
            = some .injection then ErrorCodes.guardrailInjection
          else ErrorCodes.guardrailUnsafe)) ∧
    ((guardrailsScan ⟨content, .input_validation⟩).risk_category = some .pii →
      ∃ out, guardrailsEnforce ⟨content, .input_validation⟩ = .inl out ∧
        out.is_safe = true ∧ out.sanitized_content = (sanitize_pii content).1) := by
  constructor
  · intro hne
    cases hrc : (guardrailsScan ⟨content, .output_safety⟩).risk_category with
    | none => exact absurd hrc hne
    | some r =>
      have hsafe : guardrailsIsSafe (some r) .output_safety = false := by
        cases r <;> simp [guardrailsIsSafe]
      have henf : guardrailsEnforce ⟨content, .output_safety⟩ =
          .inr ⟨"guardrails",
            (if r = .injection then ErrorCodes.guardrailInjection
              else ErrorCodes.guardrailUnsafe),
            (if r = .injection then "Prompt injection detected; request blocked."
              else "Unsafe content detected; guardrails blocked the payload."),
            false, []⟩ := by
        unfold guardrailsEnforce guardrailsEvaluate
        simp only [hrc, hsafe, Bool.false_eq_true, if_false, Option.some.injEq]
      refine ⟨_, henf, rfl, ?_⟩
      by_cases hr : r = .injection <;> simp [hr]
  · intro hpii
    have hsafe : guardrailsIsSafe
        (guardrailsScan ⟨content, .input_validation⟩).risk_category
        .input_validation = true := by
      rw [hpii]; simp [guardrailsIsSafe]
    refine ⟨guardrailsEvaluate ⟨content, .input_validation⟩, ?_, ?_, ?_⟩
    · unfold guardrailsEnforce
      simp only [guardrailsEvaluate, hsafe, if_true]
    · simp [guardrailsEvaluate, hsafe]
    · simp only [guardrailsEvaluate]
      exact guardrailsScan_sanitized _

theorem claim_C3_witness :
    (∃ f, guardrailsEnforce ⟨"My SSN is 123-45-6789", .output_safety⟩ = .inr f ∧
      f.recoverable = false ∧
      f.error_code = (if (guardrailsScan
          ⟨"My SSN is 123-45-6789", .output_safety⟩).risk_category
          = some .injection then ErrorCodes.guardrailInjection
        else ErrorCodes.guardrailUnsafe)) ∧
    (∃ out, guardrailsEnforce ⟨"My SSN is 123-45-6789", .input_validation⟩ = .inl out ∧
      out.is_safe = true ∧
      out.sanitized_content = (sanitize_pii "My SSN is 123-45-6789").1) :=
  ⟨(claim_C3 "My SSN is 123-45-6789").1 (by decide),
   (claim_C3 "My SSN is 123-45-6789").2 (by decide)⟩

/-! ## C4 — streaming never delivers its events -/

/-- Claim C4 is right about the intended contract and the code breaks
it: `stream_query` attempts to yield `"thinking"` (or, on input-guardrail
failure, `"error"`) as its first event, but `StreamEvent.event` is
`Literal["token", "complete"]`, so the pydantic constructor raises on
that very first event: for every port assembly and every request, the
delivered event list is empty and the generator crashes — the stream
closes without any terminal `complete`/`error` event. -/
theorem claim_C4 (P : Ports) (req : QueryRequest) :
    emitValidated (stream_query P req).1 = ([], true) := by
  unfold stream_query
  cases hga : apply_input_guardrails P [] req.text with
  | mk res σ =>
    cases res with
    | error e => simp [hga, emitValidated, streamEventAllowed]
    | ok sanitized =>
      simp only [hga]
      cases hre : retrieve_contexts P σ sanitized (extract_topics P.gen sanitized) 1
          (is_summary_query sanitized) with
      | mk rr σ2 =>
        obtain ⟨contexts, rerr⟩ := rr
        cases rerr with
        | some e => simp [hre, emitValidated, streamEventAllowed]
        | none =>
          simp only [hre]
          by_cases hempty : contexts.isEmpty
          · simp only [hempty, if_true]
            simp [emitValidated, streamEventAllowed]
          · simp only [hempty, if_false, Bool.false_eq_true]
            cases hstream : (streamTokens (P.tailorStream ⟨sanitized, contexts,
                req.persona, if is_summary_query sanitized then
                  some summary_formatting_instructions else none⟩)).2 with
            | error e => simp [hstream, emitValidated, streamEventAllowed]
            | ok accumulated =>
              simp only [hstream]
              cases hfin : P.tailorFinalize ⟨sanitized, contexts, req.persona,
                  if is_summary_query sanitized then
                    some summary_formatting_instructions else none⟩ accumulated with
              | error e => simp [hfin, emitValidated, streamEventAllowed]
              | ok output =>
                simp only [hfin]
                cases hv : verify_tailor_output output contexts
                    (if is_summary_query sanitized then summary_min_citations contexts
                      else 1) with
                | error e => simp [hv, emitValidated, streamEventAllowed]
                | ok u =>
                  simp only [hv]
                  cases hog : apply_output_guardrails P output with
                  | error e => simp [hog, emitValidated, streamEventAllowed]
                  | ok s => simp [hog, emitValidated, streamEventAllowed]

/-! ## C7 — topic extraction fallback -/

/-- A generation port whose call always fails. -/
def genFail : String → String → Except AgentFailure String := fun _ _ =>
  .error ⟨"llm", ErrorCodes.timedOut, "LLM call failed", true, []⟩

/-- Claim C7, counterexample: with the primary LLM extraction failing,
the query "apples and oranges" contains the coordinating keyword "and",
and splitting on the claimed keywords yields the topics
`["apples", "oranges"]` — yet `_extract_topics` returns the empty list,
because the fallback only splits when `"compare"`, `" vs "` or
`" versus "` occurs in the query; `"and"` alone never triggers it. -/
theorem claim_C7_counterexample :
    extract_topics genFail "apples and oranges" = [] ∧
    (reSplit matchSplitKw "apples and oranges").map pyStrip = ["apples", "oranges"] := by
  constructor
  · decide
  · decide

theorem llm_extract_topics_le (gen : String → String → Except AgentFailure String)
    (q : String) : (llm_extract_topics gen q).length ≤ 5 := by
  unfold llm_extract_topics
  cases hg : gen s!"Query: {q}\nOutput:" llmTopicsSystemPrompt with
  | error e => simp
  | ok r =>
    cases hj : jsonStrings? (pyStrip r) with
    | none => simp [hj]
    | some topics => simpa [hj] using List.length_take_le 5 topics

theorem topicsFallback_le (q : String) : (topicsFallback q).length ≤ 5 := by
  by_cases h : strContains (pyLower q) "compare" || strContains (pyLower q) " vs " ||
      strContains (pyLower q) " versus "
  · simp only [topicsFallback, h, Bool.not_true, Bool.false_eq_true, if_false]
    exact List.length_take_le 5 _
  · simp [topicsFallback, h]

/-- Claim C7, amended: topic extraction never surfaces an error and
always returns at most 5 topics; when the LLM call fails, or its payload
is not a JSON array of strings, extraction silently returns the
deterministic fallback — but the fallback splits (on word-bounded
`and`/`vs`/`versus`, stripping leading comparison verbs) only when the
query contains `"compare"`, `" vs "` or `" versus "`; otherwise (even
when `"and"` is present) the topic list is empty. -/
theorem claim_C7 :
    (∀ (gen : String → String → Except AgentFailure String) (q : String),
      (extract_topics gen q).length ≤ 5) ∧
    (∀ (gen : String → String → Except AgentFailure String) (q : String)
        (e : AgentFailure),
      gen s!"Query: {q}\nOutput:" llmTopicsSystemPrompt = .error e →
      extract_topics gen q = topicsFallback q) ∧
    (∀ (gen : String → String → Except AgentFailure String) (q r : String),
      gen s!"Query: {q}\nOutput:" llmTopicsSystemPrompt = .ok r →
      jsonStrings? (pyStrip r) = none →
      extract_topics gen q = topicsFallback q) ∧
    (∀ q : String, strContains (pyLower q) "compare" = false →
      strContains (pyLower q) " vs " = false →
      strContains (pyLower q) " versus " = false →
      topicsFallback q = []) := by
  refine ⟨?_, ?_, ?_, ?_⟩
  · intro gen q
    unfold extract_topics
    by_cases h : (llm_extract_topics gen q).isEmpty
    · simp only [h, Bool.not_true, Bool.false_eq_true, if_false]
      exact topicsFallback_le q
    · simp only [h, Bool.not_false, if_true]
      exact llm_extract_topics_le gen q
  · intro gen q e hgen
    unfold extract_topics llm_extract_topics
    rw [hgen]
    simp
  · intro gen q r hgen hjson
    unfold extract_topics llm_extract_topics
    rw [hgen]
    simp [hjson]
  · intro q h1 h2 h3
    simp [topicsFallback, h1, h2, h3]

theorem claim_C7_witness :
    (extract_topics genFail "apples and oranges").length ≤ 5 ∧
    extract_topics genFail "apples and oranges" = topicsFallback "apples and oranges" ∧
    topicsFallback "hello world and goodbye" = [] :=
  ⟨claim_C7.1 genFail "apples and oranges",
   claim_C7.2.1 genFail "apples and oranges"
     ⟨"llm", ErrorCodes.timedOut, "LLM call failed", true, []⟩ rfl,
   claim_C7.2.2.2 "hello world and goodbye" (by decide) (by decide) (by decide)⟩

/-! ## C8 — deduplication -/

theorem deduplicateGo_sublist (l : List RetrievedContext) :
    ∀ seenIds seenContent, List.Sublist (deduplicateGo seenIds seenContent l) l := by
  induction l with
  | nil => intro _ _; simp [deduplicateGo]
  | cons c rest ih =>
    intro sI sC
    unfold deduplicateGo
    by_cases h1 : c.chunk_id ∈ sI
    · rw [if_pos h1]
      exact (ih sI sC).cons c
    · rw [if_neg h1]
      by_cases h2 : normalizeContent c.content ∈ sC
      · simp only [h2, if_true]
        exact (ih sI sC).cons c
      · simp only [h2, if_false]
        exact (ih _ _).cons₂ c

theorem deduplicateGo_mem {l : List RetrievedContext} :
    ∀ {sI sC : List String} {x : RetrievedContext},
      x ∈ deduplicateGo sI sC l → x.chunk_id ∉ sI ∧ normalizeContent x.content ∉ sC := by
  induction l with
  | nil => intro sI sC x hx; simp [deduplicateGo] at hx
  | cons c rest ih =>
    intro sI sC x hx
    unfold deduplicateGo at hx
    by_cases h1 : c.chunk_id ∈ sI
    · rw [if_pos h1] at hx; exact ih hx
    · rw [if_neg h1] at hx
      by_cases h2 : normalizeContent c.content ∈ sC
      · simp only [h2, if_true] at hx
        exact ih hx
      · simp only [h2, if_false] at hx
        rcases List.mem_cons.mp hx with rfl | hx'
        · exact ⟨h1, h2⟩
        · have hrec := ih hx'
          exact ⟨fun hmem => hrec.1 (List.mem_cons_of_mem _ hmem),
            fun hmem => hrec.2 (List.mem_cons_of_mem _ hmem)⟩

theorem deduplicateGo_nodup (l : List RetrievedContext) :
    ∀ sI sC, ((deduplicateGo sI sC l).map (·.chunk_id)).Nodup ∧
      ((deduplicateGo sI sC l).map fun c => normalizeContent c.content).Nodup := by
  induction l with
  | nil => intro sI sC; simp [deduplicateGo]
  | cons c rest ih =>
    intro sI sC
    unfold deduplicateGo
    by_cases h1 : c.chunk_id ∈ sI
    · simpa [h1] using ih sI sC
    · rw [if_neg h1]
      by_cases h2 : normalizeContent c.content ∈ sC
      · simpa [h2] using ih sI sC
      · simp only [h2, if_false]
        have ihh := ih (c.chunk_id :: sI) (normalizeContent c.content :: sC)
        constructor
        · simp only [List.map_cons, List.nodup_cons]
          refine ⟨?_, ihh.1⟩
          intro hmem
          rcases List.mem_map.mp hmem with ⟨y, hy, hid⟩
          exact (deduplicateGo_mem hy).1 (hid ▸ List.mem_cons_self _ _)
        · simp only [List.map_cons, List.nodup_cons]
          refine ⟨?_, ihh.2⟩
          intro hmem
          rcases List.mem_map.mp hmem with ⟨y, hy, hid⟩
          exact (deduplicateGo_mem hy).2 (hid ▸ List.mem_cons_self _ _)

theorem deduplicateGo_fix (l : List RetrievedContext) :
    ∀ sI sC, (∀ x ∈ l, x.chunk_id ∉ sI ∧ normalizeContent x.content ∉ sC) →
      ((l.map (·.chunk_id)).Nodup) →
      ((l.map fun c => normalizeContent c.content).Nodup) →
      deduplicateGo sI sC l = l := by
  induction l with
  | nil => intro _ _ _ _ _; rfl
  | cons c rest ih =>
    intro sI sC hmem hids hcts
    unfold deduplicateGo
    have h1 : c.chunk_id ∉ sI := (hmem c (by simp)).1
    have h2 : normalizeContent c.content ∉ sC := (hmem c (by simp)).2
    rw [if_neg h1]
    simp only [h2, if_false]
    congr 1
    simp only [List.map_cons, List.nodup_cons] at hids hcts
    apply ih
    · intro x hx
      constructor
      · intro hmem2
        rcases List.mem_cons.mp hmem2 with heq | hin
        · exact hids.1 (heq ▸ List.mem_map_of_mem _ hx)
        · exact (hmem x (List.mem_cons_of_mem _ hx)).1 hin
      · intro hmem2
        rcases List.mem_cons.mp hmem2 with heq | hin
        · exact hcts.1 (heq ▸ List.mem_map_of_mem _ hx)
        · exact (hmem x (List.mem_cons_of_mem _ hx)).2 hin
    · exact hids.2
    · exact hcts.2

/-- At most one citation can reference the single deduplicated entry of
a duplicated chunk: worker lemma over the parsed marker numbers. -/
theorem extractCitationsGo_single (c : RetrievedContext) :
    ∀ (ns : List Nat) (seen : List Nat),
      ((0 : Nat) ∈ seen → extractCitationsGo [c] seen ns = []) ∧
      (extractCitationsGo [c] seen ns).length ≤ 1 := by
  intro ns
  induction ns with
  | nil => intro seen; constructor <;> simp [extractCitationsGo]
  | cons n rest ih =>
    intro seen
    unfold extractCitationsGo
    by_cases hn : n = 0 || [c].length < n
    · simp only [hn, if_true]
      exact ih seen
    · simp only [hn, Bool.false_eq_true, if_false]
      have hn1 : n = 1 := by
        simp only [List.length_cons, List.length_nil, Bool.or_eq_true, decide_eq_true_eq] at hn
        omega
      subst hn1
      by_cases hseen : (1 - 1 : Nat) ∈ seen
      · simp only [hseen, if_true]
        constructor
        · intro _; exact (ih seen).1 (by simpa using hseen)
        · exact (ih seen).2
      · simp only [hseen, if_false]
        constructor
        · intro h0; exact absurd (by simpa using h0) hseen
        · simp only [List.get?]
          have htail := (ih ((1 - 1) :: seen)).1 (by simp)
          simp only [show (1 - 1 : Nat) = 0 from rfl] at htail ⊢
          rw [htail]
          simp

/-- The three fixtures of the C8 counterexample: two distinct chunk ids,
with the middle chunk sharing its id with the last and its normalized
content with the first. -/
def cxA : RetrievedContext := ⟨"id1", "x", "s", none, 1⟩

def cxD : RetrievedContext := ⟨"id2", "x", "s", none, 1⟩

def cxE : RetrievedContext := ⟨"id2", "z", "s", none, 1⟩

/-- Claim C8, counterexample: in `[cxA, cxD, cxE]` the first-seen
occurrence of chunk id `"id2"` is `cxD`, yet deduplication drops `cxD`
(its normalized content collides with the already-kept `cxA`) without
registering its id, and then keeps the *later* occurrence `cxE` of the
same chunk id — so the output is not "the first-seen occurrence per
chunk_id". -/
theorem claim_C8_counterexample :
    deduplicate_context [cxA, cxD, cxE] = [cxA, cxE] ∧
    cxD.chunk_id = cxE.chunk_id ∧ cxD ≠ cxE ∧
    cxD ∉ deduplicate_context [cxA, cxD, cxE] := by
  refine ⟨by decide, by decide, by decide, by decide⟩

/-- Claim C8, amended: deduplication keeps, in first-seen order, each
chunk whose `chunk_id` and whose whitespace-normalized lowercased
content are both new *relative to the chunks already kept* (a dropped
chunk registers neither key); the result is an order-preserving sublist
with pairwise-distinct chunk ids and pairwise-distinct normalized
contents, and deduplication is idempotent. Feeding the same chunk twice
(identical `chunk_id`, identical normalized content) yields exactly one
kept chunk, exactly one numbered context entry, and at most one
citation referencing it. -/
theorem claim_C8 :
    (∀ l : List RetrievedContext, List.Sublist (deduplicate_context l) l) ∧
    (∀ l : List RetrievedContext,
      ((deduplicate_context l).map (·.chunk_id)).Nodup ∧
      ((deduplicate_context l).map fun c => normalizeContent c.content).Nodup) ∧
    (∀ l : List RetrievedContext,
      deduplicate_context (deduplicate_context l) = deduplicate_context l) ∧
    (∀ c : RetrievedContext, deduplicate_context [c, c] = [c]) ∧
    (∀ c : RetrievedContext, (contextLinesGo 1 [c]).length = 1) ∧
    (∀ (c : RetrievedContext) (response : String),
      (extract_citations response [c]).length ≤ 1) := by
  refine ⟨?_, ?_, ?_, ?_, ?_, ?_⟩
  · intro l; exact deduplicateGo_sublist l [] []
  · intro l; exact deduplicateGo_nodup l [] []
  · intro l
    apply deduplicateGo_fix
    · intro x _; simp
    · exact (deduplicateGo_nodup l [] []).1
    · exact (deduplicateGo_nodup l [] []).2
  · intro c
    simp [deduplicate_context, deduplicateGo]
  · intro c
    simp [contextLinesGo]
  · intro c response
    exact (extractCitationsGo_single c (findCitationNums response.data) []).2

/-! ## C9 — retrieval aborts -/

theorem retrieveLoop_error_empty (P : Ports) (attempt : Nat) (summary : Bool)
    (top_k : Nat) (min_score : Rat) :
    ∀ (targets : List String) (acc ctxs : List RetrievedContext) (σ σ' : List PlanEvent)
      (f : AgentFailure),
      retrieveLoop P attempt summary top_k min_score targets acc σ = ((ctxs, some f), σ') →
      ctxs = [] := by
  intro targets
  induction targets with
  | nil =>
    intro acc ctxs σ σ' f h
    simp [retrieveLoop] at h
  | cons topic rest ih =>
    intro acc ctxs σ σ' f h
    unfold retrieveLoop at h
    cases hm : P.memory ⟨topic, top_k, min_score⟩ with
    | inl result =>
      simp only [hm] at h
      exact ih _ _ _ _ _ h
    | inr failure =>
      simp only [hm] at h
      by_cases hcode : failure.error_code = ErrorCodes.memoryNoResults
      · rw [if_pos hcode] at h
        cases hm2 : P.memory ⟨topic, (if summary then 18 else 8),
            (if summary then (0.2 : Rat) else (0.3 : Rat))⟩ with
        | inl relaxed =>
          simp only [hm2] at h
          exact ih _ _ _ _ _ h
        | inr f2 =>
          simp only [hm2] at h
          simp only [Prod.mk.injEq] at h
          exact h.1.1.symm ▸ rfl
      · rw [if_neg hcode] at h
        simp only [Prod.mk.injEq] at h
        exact h.1.1.symm ▸ rfl

/-- Claim C9: (i) whenever retrieval returns a `Failure`, the returned
context list is empty — even contexts already accumulated from earlier
successful targets are discarded; (ii) a Memory failure other than
"no results" aborts the whole call at that target: the result — failure
returned and events appended — does not mention the remaining targets at
all (they are never queried); (iii) likewise for a second consecutive
"no results" after the relaxed retry, which returns the relaxed
failure. -/
theorem claim_C9 :
    (∀ (P : Ports) (σ : List PlanEvent) (q : String) (topics : List String)
        (a : Nat) (s : Bool) (ctxs : List RetrievedContext) (f : AgentFailure)
        (σ' : List PlanEvent),
      retrieve_contexts P σ q topics a s = ((ctxs, some f), σ') → ctxs = []) ∧
    (∀ (P : Ports) (a : Nat) (s : Bool) (tk : Nat) (ms : Rat) (topic : String)
        (rest : List String) (acc : List RetrievedContext) (σ : List PlanEvent)
        (f : AgentFailure),
      P.memory ⟨topic, tk, ms⟩ = .inr f →
      f.error_code ≠ ErrorCodes.memoryNoResults →
      retrieveLoop P a s tk ms (topic :: rest) acc σ = (([], some f),
        σ ++ [.add s!"Retrieve context for \x27{topic}\x27 (attempt {a})"
            "memory.query" .pending,
          .set (addCount σ + 1) .in_progress, .set (addCount σ + 1) .failed,
          .set (addCount σ + 1) .failed])) ∧
    (∀ (P : Ports) (a : Nat) (s : Bool) (tk : Nat) (ms : Rat) (topic : String)
        (rest : List String) (acc : List RetrievedContext) (σ : List PlanEvent)
        (f f2 : AgentFailure),
      P.memory ⟨topic, tk, ms⟩ = .inr f →
      f.error_code = ErrorCodes.memoryNoResults →
      P.memory ⟨topic, (if s then 18 else 8), (if s then (0.2 : Rat) else (0.3 : Rat))⟩
        = .inr f2 →
      retrieveLoop P a s tk ms (topic :: rest) acc σ = (([], some f2),
        σ ++ [.add s!"Retrieve context for \x27{topic}\x27 (attempt {a})"
            "memory.query" .pending,
          .set (addCount σ + 1) .in_progress, .set (addCount σ + 1) .failed,
          .add s!"Relax retrieval threshold for \x27{topic}\x27 (attempt {a})"
            "memory.query" .pending,
          .set (addCount σ + 2) .in_progress, .set (addCount σ + 2) .failed,
          .set (addCount σ + 1) .failed])) := by
  refine ⟨?_, ?_, ?_⟩
  · intro P σ q topics a s ctxs f σ' h
    unfold retrieve_contexts at h
    exact retrieveLoop_error_empty P a s _ _ _ _ _ _ _ _ h
  · intro P a s tk ms topic rest acc σ f hm hcode
    unfold retrieveLoop emitAdd emitSet
    simp only [hm]
    rw [if_neg hcode]
    simp [List.append_assoc]
  · intro P a s tk ms topic rest acc σ f f2 hm hcode hm2
    unfold retrieveLoop emitAdd emitSet
    simp only [hm]
    rw [if_pos hcode]
    simp only [hm2]
    have hcount : addCount (σ ++ [PlanEvent.add
        s!"Retrieve context for \x27{topic}\x27 (attempt {a})"
        "memory.query" .pending] ++ [PlanEvent.set (addCount σ + 1) .in_progress] ++
        [PlanEvent.set (addCount σ + 1) .failed]) = addCount σ + 1 := by
      simp [addCount_append, addCount, List.countP_cons, isAddEvent]
    rw [hcount]
    simp [List.append_assoc]

/-! ## C5 — retrieval relaxation -/

theorem applyEvent_add_eq (plan : List PlanStep) (d t : String) (s : PlanStatus) :
    applyEvent plan (.add d t s) = plan ++ [⟨plan.length + 1, d, t, s⟩] := rfl

/-- A `set` targeting the single just-appended step. -/
theorem applyEvent_set_one (plan : List PlanStep) (sid : Nat) (d t : String)
    (s0 s : PlanStatus) (h : ∀ x ∈ plan, x.step_id ≠ sid) :
    applyEvent (plan ++ [⟨sid, d, t, s0⟩]) (.set sid s) = plan ++ [⟨sid, d, t, s⟩] := by
  simp only [applyEvent, List.map_append]
  have h1 : plan.map (fun x => if x.step_id = sid then { x with status := s } else x)
      = plan := by
    conv_rhs => rw [show plan = plan.map id from (List.map_id plan).symm]
    apply List.map_congr_left
    intro x hx
    simp [h x hx]
  rw [h1]
  simp

/-- A `set` targeting the second of the last two appended steps. -/
theorem applyEvent_set_snd (plan : List PlanStep) (st1 : PlanStep) (sid : Nat)
    (d t : String) (s0 s : PlanStatus) (h : ∀ x ∈ plan, x.step_id ≠ sid)
    (h1 : st1.step_id ≠ sid) :
    applyEvent (plan ++ [st1, ⟨sid, d, t, s0⟩]) (.set sid s) =
      plan ++ [st1, ⟨sid, d, t, s⟩] := by
  simp only [applyEvent, List.map_append]
  have hp : plan.map (fun x => if x.step_id = sid then { x with status := s } else x)
      = plan := by
    conv_rhs => rw [show plan = plan.map id from (List.map_id plan).symm]
    apply List.map_congr_left
    intro x hx
    simp [h x hx]
  rw [hp]
  simp [h1]

/-- A `set` targeting the first of the last two appended steps. -/
theorem applyEvent_set_fst (plan : List PlanStep) (sid : Nat) (d t : String)
    (s0 s : PlanStatus) (st2 : PlanStep) (h : ∀ x ∈ plan, x.step_id ≠ sid)
    (h2 : st2.step_id ≠ sid) :
    applyEvent (plan ++ [⟨sid, d, t, s0⟩, st2]) (.set sid s) =
      plan ++ [⟨sid, d, t, s⟩, st2] := by
  simp only [applyEvent, List.map_append]
  have hp : plan.map (fun x => if x.step_id = sid then { x with status := s } else x)
      = plan := by
    conv_rhs => rw [show plan = plan.map id from (List.map_id plan).symm]
    apply List.map_congr_left
    intro x hx
    simp [h x hx]
  rw [hp]
  simp [h2]

/-- The memory stub of the C5 scenario: "no results" on the strict
parameters (`top_k = 5`), a result on any other query. -/
def relaxMemPorts : Ports :=
  { okPorts with
    memory := fun q => if q.top_k = 5 then .inr noResultsFailure else .inl ⟨[ctxAlpha], 1⟩ }

/-- Claim C5, counterexample: with a Memory stub returning "no results"
on the strict parameters and a chunk on the relaxed ones, `retrieve`
returns the relaxed results and records exactly two PlanSteps for that
target — but the strict attempt's `failed` status is overwritten to
`completed` by the end of the per-target loop iteration (line 316 of the
orchestrator), so the final ledger does *not* show the strict attempt as
failed, contrary to the claim. -/
theorem claim_C5_counterexample :
    (retrieve_contexts relaxMemPorts [] "Explain Alpha" [] 1 false).1
        = ([ctxAlpha], none) ∧
    (replayPlan (retrieve_contexts relaxMemPorts [] "Explain Alpha" [] 1 false).2).map
        (fun st => (st.tool_call, st.status)) =
      [("memory.query", .completed), ("memory.query", .completed)] ∧
    ((replayPlan (retrieve_contexts relaxMemPorts [] "Explain Alpha" [] 1 false).2).map
        (·.status)).head? ≠ some .failed := by
  refine ⟨by decide, by decide, by decide⟩

/-- Claim C5, amended: when the Memory Port reports "no results" on the
strict parameters (`top_k = 12/5`, `min_relevance_score = 0.4/0.7` for
summary/normal mode), the loop immediately re-queries the same target
exactly once with the relaxed parameters (`top_k = 18/8`,
`min_relevance_score = 0.2/0.3`), continues with the relaxed results
appended, and records exactly two PlanSteps for the target — the relaxed
attempt completed, and the strict attempt *also* finally marked
completed: its transient `failed` status is overwritten when the
iteration ends. -/
theorem claim_C5 (P : Ports) (σ : List PlanEvent) (topic : String) (rest : List String)
    (acc : List RetrievedContext) (a : Nat) (s : Bool) (f : AgentFailure)
    (out : MemoryOutput)
    (hm : P.memory ⟨topic, (if s then 12 else 5), (if s then (0.4 : Rat) else (0.7 : Rat))⟩
      = .inr f)
    (hcode : f.error_code = ErrorCodes.memoryNoResults)
    (hm2 : P.memory ⟨topic, (if s then 18 else 8), (if s then (0.2 : Rat) else (0.3 : Rat))⟩
      = .inl out) :
    retrieveLoop P a s (if s then 12 else 5) (if s then (0.4 : Rat) else (0.7 : Rat))
        (topic :: rest) acc σ =
      retrieveLoop P a s (if s then 12 else 5) (if s then (0.4 : Rat) else (0.7 : Rat))
        rest (acc ++ out.results)
        (σ ++ [.add s!"Retrieve context for \x27{topic}\x27 (attempt {a})"
            "memory.query" .pending,
          .set (addCount σ + 1) .in_progress, .set (addCount σ + 1) .failed,
          .add s!"Relax retrieval threshold for \x27{topic}\x27 (attempt {a})"
            "memory.query" .pending,
          .set (addCount σ + 2) .in_progress, .set (addCount σ + 2) .completed,
          .set (addCount σ + 1) .completed]) ∧
    replayPlan (σ ++ [.add s!"Retrieve context for \x27{topic}\x27 (attempt {a})"
          "memory.query" .pending,
        .set (addCount σ + 1) .in_progress, .set (addCount σ + 1) .failed,
        .add s!"Relax retrieval threshold for \x27{topic}\x27 (attempt {a})"
          "memory.query" .pending,
        .set (addCount σ + 2) .in_progress, .set (addCount σ + 2) .completed,
        .set (addCount σ + 1) .completed]) =
      replayPlan σ ++
        [⟨addCount σ + 1, s!"Retrieve context for \x27{topic}\x27 (attempt {a})",
          "memory.query", .completed⟩,
         ⟨addCount σ + 2, s!"Relax retrieval threshold for \x27{topic}\x27 (attempt {a})",
          "memory.query", .completed⟩] := by
  constructor
  · simp only [retrieveLoop, emitAdd, emitSet]
    simp only [hm]
    rw [if_pos hcode]
    simp only [hm2]
    have hcount : addCount (σ ++ [PlanEvent.add
        s!"Retrieve context for \x27{topic}\x27 (attempt {a})"
        "memory.query" .pending] ++ [PlanEvent.set (addCount σ + 1) .in_progress] ++
        [PlanEvent.set (addCount σ + 1) .failed]) = addCount σ + 1 := by
      simp [addCount_append, addCount, List.countP_cons, isAddEvent]
    rw [hcount]
    rw [show addCount σ + 1 + 1 = addCount σ + 2 by omega]
    simp [List.append_assoc]
  · rw [replayPlan_append]
    have hlen : (replayPlan σ).length = addCount σ := length_replayPlan σ
    have hneq1 : ∀ x ∈ replayPlan σ, x.step_id ≠ addCount σ + 1 := by
      intro x hx
      have := replayPlan_id_le σ x hx
      omega
    have hneq2 : ∀ x ∈ replayPlan σ, x.step_id ≠ addCount σ + 2 := by
      intro x hx
      have := replayPlan_id_le σ x hx
      omega
    simp only [replayAux, List.foldl_cons, List.foldl_nil]
    rw [applyEvent_add_eq (replayPlan σ), hlen]
    rw [applyEvent_set_one (replayPlan σ) (addCount σ + 1) _ _ _ _ hneq1]
    rw [applyEvent_set_one (replayPlan σ) (addCount σ + 1) _ _ _ _ hneq1]
    rw [applyEvent_add_eq (replayPlan σ ++ [(⟨addCount σ + 1,
      s!"Retrieve context for \x27{topic}\x27 (attempt {a})", "memory.query",
      PlanStatus.failed⟩ : PlanStep)])]
    rw [show (replayPlan σ ++ [(⟨addCount σ + 1,
      s!"Retrieve context for \x27{topic}\x27 (attempt {a})", "memory.query",
      PlanStatus.failed⟩ : PlanStep)]).length + 1 = addCount σ + 2 by simp [hlen]]
    rw [List.append_assoc]
    simp only [List.cons_append, List.nil_append]
    rw [applyEvent_set_snd (replayPlan σ) _ (addCount σ + 2) _ _ _ _ hneq2
      (by simp)]
    rw [applyEvent_set_snd (replayPlan σ) _ (addCount σ + 2) _ _ _ _ hneq2
      (by simp)]
    rw [applyEvent_set_fst (replayPlan σ) (addCount σ + 1) _ _ _ _ _ hneq1
      (by simp)]

theorem claim_C5_witness :
    (retrieve_contexts relaxMemPorts [] "Explain Alpha" [] 1 false).1.1 = [ctxAlpha] ∧
    (replayPlan (retrieve_contexts relaxMemPorts [] "Explain Alpha" [] 1 false).2).map
      (·.status) = [.completed, .completed] := by
  have h := claim_C5 relaxMemPorts [] "Explain Alpha" [] [] 1 false noResultsFailure
    ⟨[ctxAlpha], 1⟩ rfl rfl rfl
  refine ⟨by decide, ?_⟩
  have h2 := h.2
  exact by decide

/-! ## C2 — loop exhaustion -/

/-- The always-raised recoverable synthesis failure of the C2 scenario. -/
def hallucinationFailure : AgentFailure :=
  ⟨"tailor", ErrorCodes.tailorHallucination, "Verifier detected hallucination", true, []⟩

/-- Ports whose synthesis stage always fails recoverably. -/
def failTailorPorts : Ports :=
  { okPorts with tailorProcess := fun _ => .error hallucinationFailure }

/-- Claim C2, counterexample: with a synthesis stage that always raises
the recoverable hallucination failure, `run_query` (max_depth = 5) does
append 5 retry PlanSteps — but then raises the *last* hallucination
failure itself (recoverable, error code `ERR_TAILOR_HALLUCINATION`),
not a non-recoverable "timeout" failure as the claim states. -/
theorem claim_C2_counterexample :
    (run_query failTailorPorts 5 ⟨"Explain Alpha", .General, false⟩).1
        = .error hallucinationFailure ∧
    hallucinationFailure.error_code ≠ ErrorCodes.timedOut ∧
    hallucinationFailure.recoverable = true ∧
    toolCallCount "orchestrator.retry"
      (replayPlan (run_query failTailorPorts 5 ⟨"Explain Alpha", .General, false⟩).2) = 5 := by
  refine ⟨by decide, by decide, by decide, by decide⟩

theorem retrieveLoop_success (P : Ports) (a : Nat) (s : Bool) (tk : Nat) (ms : Rat)
    (hmem : ∀ q, ∃ out, P.memory q = .inl out ∧ out.results ≠ []) :
    ∀ (targets : List String) (acc : List RetrievedContext) (σ : List PlanEvent),
      ∃ ctxs σ', retrieveLoop P a s tk ms targets acc σ = ((ctxs, none), σ') ∧
        ((acc ≠ [] ∨ targets ≠ []) → ctxs ≠ []) ∧
        (∀ t, t ≠ "memory.query" → addToolCount t σ' = addToolCount t σ) := by
  intro targets
  induction targets with
  | nil =>
    intro acc σ
    exact ⟨acc, σ, by simp [retrieveLoop], fun h => by
      rcases h with h | h
      · exact h
      · exact absurd rfl h, fun t _ => rfl⟩
  | cons topic rest ih =>
    intro acc σ
    obtain ⟨out, hout, hne⟩ := hmem ⟨topic, tk, ms⟩
    obtain ⟨ctxs, σ', hloop, hne', hcnt⟩ := ih (acc ++ out.results)
      (σ ++ [.add s!"Retrieve context for \x27{topic}\x27 (attempt {a})"
        "memory.query" .pending,
        .set (addCount σ + 1) .in_progress, .set (addCount σ + 1) .completed])
    refine ⟨ctxs, σ', ?_, ?_, ?_⟩
    · simp only [retrieveLoop, emitAdd, emitSet, hout]
      rw [← hloop]
      congr 1
      simp [List.append_assoc]
    · intro _
      apply hne'
      left
      simp [hne]
    · intro t ht
      rw [hcnt t ht, addToolCount_append]
      have : addToolCount t [PlanEvent.add
          s!"Retrieve context for \x27{topic}\x27 (attempt {a})" "memory.query" .pending,
          .set (addCount σ + 1) .in_progress, .set (addCount σ + 1) .completed] = 0 := by
        simp only [addToolCount, List.countP_cons, List.countP_nil]
        have : ("memory.query" == t) = false := by
          simp only [beq_eq_false_iff_ne, ne_eq]
          exact fun hh => ht hh.symm
        simp [this]
      omega

theorem synth_always_fails (P : Ports) (e : AgentFailure) (σ : List PlanEvent)
    (q : String) (ctxs : List RetrievedContext) (p : Persona) (a : Nat) (s : Bool)
    (hne : ctxs ≠ []) (htail : ∀ pl, P.tailorProcess pl = .error e) :
    synthesize_and_verify P σ q ctxs p a s = (.error e,
      σ ++ [.add s!"Verifier + Synthesize attempt {a}" "tailor.process+verifier" .pending,
        .set (addCount σ + 1) .in_progress, .set (addCount σ + 1) .failed]) := by
  unfold synthesize_and_verify emitAdd emitSet
  have hE : ctxs.isEmpty = false := by
    cases ctxs with
    | nil => exact absurd rfl hne
    | cons c cs => rfl
  simp only [hE, Bool.false_eq_true, if_false]
  rw [htail]
  simp [List.append_assoc]

theorem runLoop_always_fails (P : Ports) (e : AgentFailure) (q : String)
    (topics : List String) (p : Persona) (s : Bool)
    (hmem : ∀ mq, ∃ out, P.memory mq = .inl out ∧ out.results ≠ [])
    (htail : ∀ pl, P.tailorProcess pl = .error e)
    (he : e.recoverable = true) :
    ∀ (r aPrev : Nat) (le : Option AgentFailure) (σ : List PlanEvent),
      (le = none ∨ le = some e) →
      (runLoop P q topics p s r aPrev le σ).1 =
        .error (if r = 0 then (match le with
          | none => ⟨"orchestrator.roma", ErrorCodes.timedOut,
              "ROMA planning exhausted without completion.", false, []⟩
          | some e' => e') else e) ∧
      addToolCount "orchestrator.retry" (runLoop P q topics p s r aPrev le σ).2 =
        addToolCount "orchestrator.retry" σ + r ∧
      addToolCount "tailor.process+verifier" (runLoop P q topics p s r aPrev le σ).2 =
        addToolCount "tailor.process+verifier" σ + r := by
  intro r
  induction r with
  | zero =>
    intro aPrev le σ hle
    cases le <;> simp [runLoop]
  | succ rr ih =>
    intro aPrev le σ hle
    have htargets : (if topics.isEmpty then [q] else topics) ≠ [] := by
      by_cases h : topics.isEmpty
      · simp [h]
      · simp only [h, Bool.false_eq_true, if_false]
        cases topics with
        | nil => simp at h
        | cons a b => simp
    obtain ⟨ctxs, σ', hret, hctxs, hcnt⟩ := retrieveLoop_success P (aPrev + 1) s
      (if s then 12 else 5) (if s then (0.4 : Rat) else (0.7 : Rat)) hmem
      (if topics.isEmpty then [q] else topics) [] σ
    have hctxs' : ctxs ≠ [] := hctxs (Or.inr htargets)
    have hretc : retrieve_contexts P σ q topics (aPrev + 1) s = ((ctxs, none), σ') := by
      unfold retrieve_contexts
      exact hret
    have hsy := synth_always_fails P e σ' q ctxs p (aPrev + 1) s hctxs' htail
    have hrec : (!e.recoverable) = false := by rw [he]; rfl
    simp only [runLoop, hretc, hsy, hrec, Bool.false_eq_true, if_false, emitAdd]
    have hr := ih (aPrev + 1) (some e)
      ((σ' ++ [.add s!"Verifier + Synthesize attempt {aPrev + 1}"
          "tailor.process+verifier" .pending,
        .set (addCount σ' + 1) .in_progress, .set (addCount σ' + 1) .failed]) ++
        [.add s!"Retry planning iteration {aPrev + 1 + 1} due to {e.error_code}"
          "orchestrator.retry" .pending]) (Or.inr rfl)
    refine ⟨?_, ?_, ?_⟩
    · rw [hr.1]
      simp
    · rw [hr.2.1, addToolCount_append, addToolCount_append]
      have c1 : addToolCount "orchestrator.retry"
          [PlanEvent.add s!"Verifier + Synthesize attempt {aPrev + 1}"
            "tailor.process+verifier" .pending,
          .set (addCount σ' + 1) .in_progress, .set (addCount σ' + 1) .failed] = 0 := by
        simp [addToolCount, List.countP_cons]
      have c2 : addToolCount "orchestrator.retry"
          [PlanEvent.add s!"Retry planning iteration {aPrev + 1 + 1} due to {e.error_code}"
            "orchestrator.retry" .pending] = 1 := by
        simp [addToolCount, List.countP_cons]
      rw [c1, c2, hcnt "orchestrator.retry" (by decide)]
      omega
    · rw [hr.2.2, addToolCount_append, addToolCount_append]
      have c1 : addToolCount "tailor.process+verifier"
          [PlanEvent.add s!"Verifier + Synthesize attempt {aPrev + 1}"
            "tailor.process+verifier" .pending,
          .set (addCount σ' + 1) .in_progress, .set (addCount σ' + 1) .failed] = 1 := by
        simp [addToolCount, List.countP_cons]
      have c2 : addToolCount "tailor.process+verifier"
          [PlanEvent.add s!"Retry planning iteration {aPrev + 1 + 1} due to {e.error_code}"
            "orchestrator.retry" .pending] = 0 := by
        simp [addToolCount, List.countP_cons]
      rw [c1, c2, hcnt "tailor.process+verifier" (by decide)]
      omega

/-- Claim C2, amended: when input sanitization succeeds and every cycle
fails with the same recoverable failure (memory succeeding with
non-empty results, synthesis always raising a recoverable `e`),
`run_query` performs exactly `max_depth` cycles (one
`tailor.process+verifier` step per cycle), appends exactly `max_depth`
retry PlanSteps — and then re-raises the *last* recoverable failure `e`
itself; the non-recoverable "timeout" failure is raised only in the
degenerate case `max_depth = 0`, when no cycle ever ran and no failure
was recorded. -/
theorem claim_C2 (P : Ports) (e : AgentFailure) (d : Nat) (req : QueryRequest)
    (g0 : GuardrailsOutput)
    (hg : P.guardrails ⟨req.text, .input_validation⟩ = .inl g0)
    (hmem : ∀ mq, ∃ out, P.memory mq = .inl out ∧ out.results ≠ [])
    (htail : ∀ pl, P.tailorProcess pl = .error e)
    (he : e.recoverable = true) :
    (run_query P d req).1 = .error (if d = 0 then
        ⟨"orchestrator.roma", ErrorCodes.timedOut,
          "ROMA planning exhausted without completion.", false, []⟩ else e) ∧
    toolCallCount "orchestrator.retry" (replayPlan (run_query P d req).2) = d ∧
    toolCallCount "tailor.process+verifier" (replayPlan (run_query P d req).2) = d := by
  have hig : apply_input_guardrails P [] req.text =
      (.ok (if g0.sanitized_content = "" then req.text else g0.sanitized_content),
        [.add "Guardrails validation" "guardrails.enforce" .pending,
          .set 1 .in_progress, .set 1 .completed]) := by
    unfold apply_input_guardrails emitAdd emitSet
    simp only [hg]
    rfl
  unfold run_query
  rw [hig]
  obtain ⟨h1, h2, h3⟩ := runLoop_always_fails P e
    (if g0.sanitized_content = "" then req.text else g0.sanitized_content)
    (extract_topics P.gen (if g0.sanitized_content = "" then req.text
      else g0.sanitized_content))
    req.persona
    (is_summary_query (if g0.sanitized_content = "" then req.text
      else g0.sanitized_content))
    hmem htail he d 0 none
    [.add "Guardrails validation" "guardrails.enforce" .pending,
      .set 1 .in_progress, .set 1 .completed] (Or.inl rfl)
  refine ⟨?_, ?_, ?_⟩
  · exact h1
  · rw [toolCallCount_replayPlan, h2]
    simp [addToolCount, List.countP_cons]
  · rw [toolCallCount_replayPlan, h3]
    simp [addToolCount, List.countP_cons]

theorem claim_C2_witness :
    (run_query failTailorPorts 5 ⟨"Explain Alpha", .General, false⟩).1
        = .error (if 5 = 0 then
          ⟨"orchestrator.roma", ErrorCodes.timedOut,
            "ROMA planning exhausted without completion.", false, []⟩
          else hallucinationFailure) ∧
    toolCallCount "orchestrator.retry"
      (replayPlan (run_query failTailorPorts 5 ⟨"Explain Alpha", .General, false⟩).2) = 5 ∧
    toolCallCount "tailor.process+verifier"
      (replayPlan (run_query failTailorPorts 5 ⟨"Explain Alpha", .General, false⟩).2) = 5 :=
  claim_C2 failTailorPorts hallucinationFailure 5 ⟨"Explain Alpha", .General, false⟩
    ⟨true, "Explain Alpha", none, "No guardrail violations detected."⟩
    (by decide)
    (fun mq => ⟨⟨[ctxAlpha], 1⟩, rfl, by decide⟩)
    (fun pl => rfl)
    rfl

/-! ## C6 — citation minimums -/

theorem verify_tailor_output_ok {resp : TailorOutput} {ctxs : List RetrievedContext}
    {mc : Nat} (h : verify_tailor_output resp ctxs mc = .ok ()) :
    mc ≤ resp.citations.length ∧
    ∀ cit ∈ resp.citations, cit.chunk_id ∈ ctxs.map (·.chunk_id) := by
  unfold verify_tailor_output at h
  by_cases h1 : (resp.citations.isEmpty || decide (resp.citations.length < mc)) = true
  · rw [if_pos h1] at h
    exact absurd h (by simp)
  · rw [if_neg h1] at h
    simp only [Bool.or_eq_true, decide_eq_true_eq, not_or] at h1
    constructor
    · omega
    · intro cit hcit
      by_cases h2 : (((resp.citations.filter fun c =>
          !((ctxs.map (·.chunk_id)).contains c.chunk_id)).map (·.chunk_id)).isEmpty) = true
      · simp only [List.isEmpty_eq_true, List.map_eq_nil_iff, List.filter_eq_nil_iff] at h2
        have := h2 cit hcit
        simpa using this
      · rw [if_neg h2] at h
        exact absurd h (by simp)

theorem verify_tailor_output_short {resp : TailorOutput} {ctxs : List RetrievedContext}
    {mc : Nat} (h : resp.citations.length < mc) :
    verify_tailor_output resp ctxs mc = .error ⟨"orchestrator.verifier",
      ErrorCodes.tailorHallucination,
      "Verifier rejected response: insufficient citations.", true, []⟩ := by
  unfold verify_tailor_output
  rw [if_pos (by simp [h])]

theorem apply_output_guardrails_citations {P : Ports} {resp out : TailorOutput}
    (h : apply_output_guardrails P resp = .ok out) : out.citations = resp.citations := by
  unfold apply_output_guardrails at h
  cases hg : P.guardrails ⟨resp.content, .output_safety⟩ with
  | inr f => simp only [hg] at h; exact absurd h (by simp)
  | inl result =>
    simp only [hg] at h
    by_cases he : result.sanitized_content = resp.content
    · rw [if_pos he] at h
      cases h
      rfl
    · rw [if_neg he] at h
      cases h
      rfl

theorem synthesize_ok {P : Ports} {σ : List PlanEvent} {q : String}
    {ctxs : List RetrievedContext} {p : Persona} {a : Nat} {s : Bool}
    {out : TailorOutput} {σ' : List PlanEvent}
    (h : synthesize_and_verify P σ q ctxs p a s = (.ok out, σ')) :
    ∃ response, P.tailorProcess ⟨q, ctxs, p,
        if s then some summary_formatting_instructions else none⟩ = .ok response ∧
      verify_tailor_output response ctxs
        (if s then summary_min_citations ctxs else 1) = .ok () ∧
      apply_output_guardrails P response = .ok out := by
  unfold synthesize_and_verify at h
  by_cases hempty : ctxs.isEmpty
  · simp only [hempty, if_true] at h
    simp at h
  · simp only [hempty, Bool.false_eq_true, if_false] at h
    cases ht : P.tailorProcess ⟨q, ctxs, p,
        if s then some summary_formatting_instructions else none⟩ with
    | error e => simp only [ht] at h; simp at h
    | ok response =>
      simp only [ht] at h
      cases hv : verify_tailor_output response ctxs
          (if s then summary_min_citations ctxs else 1) with
      | error e => simp only [hv] at h; simp at h
      | ok u =>
        simp only [hv] at h
        cases hog : apply_output_guardrails P response with
        | error e => simp only [hog] at h; simp at h
        | ok sanitized =>
          simp only [hog] at h
          simp only [Prod.mk.injEq, Except.ok.injEq] at h
          exact ⟨response, rfl, by cases u; exact hv, by rw [hog, h.1]⟩

theorem nodup_map_get_ne {f : RetrievedContext → String} {l : List RetrievedContext}
    (h : (l.map f).Nodup) {i j : Nat} {a b : RetrievedContext}
    (ha : l.get? i = some a) (hb : l.get? j = some b) (hij : i ≠ j) :
    f a ≠ f b := by
  intro he
  apply hij
  have hi : i < l.length := by
    by_contra hlt
    rw [List.get?_eq_none.mpr (by omega)] at ha
    simp at ha
  apply List.get?_inj (by simpa using hi) h
  rw [List.get?_map, List.get?_map, ha, hb]
  simp [he]

theorem extractCitationsGo_mem {chunks : List RetrievedContext} :
    ∀ {seen ns : List Nat} {cit : SourceCitation},
      cit ∈ extractCitationsGo chunks seen ns →
      ∃ j chunk, j ∉ seen ∧ chunks.get? j = some chunk ∧
        cit = ⟨chunk.source_id, chunk.chunk_id, String.mk (chunk.content.data.take 200),
          chunk.source_url⟩ := by
  intro seen ns
  induction ns generalizing seen with
  | nil => intro cit h; simp [extractCitationsGo] at h
  | cons n rest ih =>
    intro cit h
    simp only [extractCitationsGo] at h
    split at h
    · exact ih h
    · split at h
      · exact ih h
      · rename_i hseen
        split at h
        · rename_i chunk hc
          rcases List.mem_cons.mp h with rfl | h2
          · exact ⟨n - 1, chunk, hseen, hc, rfl⟩
          · obtain ⟨j, ch, hj, hg, he⟩ := ih h2
            exact ⟨j, ch, fun hm => hj (List.mem_cons_of_mem _ hm), hg, he⟩
        · exact ih h

theorem extractCitationsGo_nodup {chunks : List RetrievedContext}
    (hids : (chunks.map (·.chunk_id)).Nodup) :
    ∀ (seen ns : List Nat),
      ((extractCitationsGo chunks seen ns).map (·.chunk_id)).Nodup := by
  intro seen ns
  induction ns generalizing seen with
  | nil => simp [extractCitationsGo]
  | cons n rest ih =>
    simp only [extractCitationsGo]
    split
    · exact ih seen
    · split
      · exact ih seen
      · rename_i hseen
        split
        · rename_i chunk hc
          simp only [List.map_cons, List.nodup_cons]
          refine ⟨?_, ih _⟩
          intro hmem
          rcases List.mem_map.mp hmem with ⟨y, hy, hid⟩
          obtain ⟨j, ch, hj, hg, he⟩ := extractCitationsGo_mem hy
          have hjne : j ≠ n - 1 := fun hjj => hj (hjj ▸ List.mem_cons_self _ _)
          have hne := nodup_map_get_ne hids hg hc hjne
          apply hne
      /- `y`'s id is `ch`'s id by `he`, and equals `chunk`'s id by `hid`. -/
          rw [← hid, he]
        · exact ih seen

theorem tailor_process_ok {gen : String → String → Except AgentFailure String}
    {payload : TailorInput} {out : TailorOutput}
    (h : tailor_process gen payload = .ok out) :
    (out.citations.map (·.chunk_id)).Nodup ∧
    (∀ cit ∈ out.citations,
      cit.chunk_id ∈ payload.context_chunks.map (·.chunk_id)) ∧
    out.citations ≠ [] := by
  unfold tailor_process at h
  by_cases hempty : payload.context_chunks.isEmpty = true
  · rw [if_pos hempty] at h; simp at h
  · rw [if_neg hempty] at h
    cases hgen : gen (build_user_prompt payload.user_query
        (build_context_text (deduplicate_context payload.context_chunks))
        payload.formatting_instructions) (build_system_prompt payload.persona) with
    | error r => simp only [hgen] at h; simp at h
    | ok result =>
      simp only [hgen, build_tailor_output] at h
      by_cases hce :
          (extract_citations result (deduplicate_context payload.context_chunks)).isEmpty = true
      · rw [if_pos hce] at h; simp at h
      · rw [if_neg hce] at h
        simp only [Except.ok.injEq] at h
        subst h
        refine ⟨?_, ?_, ?_⟩
        · exact extractCitationsGo_nodup
            (deduplicateGo_nodup payload.context_chunks [] []).1 [] _
        · intro cit hcit
          obtain ⟨j, ch, _, hg, he⟩ := extractCitationsGo_mem hcit
          have hchm : ch ∈ deduplicate_context payload.context_chunks := List.get?_mem hg
          have hm2 : ch ∈ payload.context_chunks :=
            (deduplicateGo_sublist payload.context_chunks [] []).mem hchm
          rw [he]
          exact List.mem_map.mpr ⟨ch, hm2, rfl⟩
        · intro hnil
          exact hce (by simp [extract_citations] at hnil ⊢; simp [hnil])

/-- C6, shared fixture: a context with real content. -/
def cxA6 : RetrievedContext := ⟨"c1", "alpha", "s", none, 1⟩

/-- C6, shared fixture: a context whose content is whitespace-only. -/
def cxWs6 : RetrievedContext := ⟨"c2", " ", "s", none, 1⟩

/-- C6 generation stub: the LLM answers with a single citation. -/
def c6Gen : String → String → Except AgentFailure String := fun _ _ => .ok "Summary [1]"

/-- C6 ports: the repository's Tailor over `c6Gen`. -/
def c6Ports : Ports := { okPorts with tailorProcess := tailor_process c6Gen }

/-- Claim C6, counterexample: with one real context and one
whitespace-only context, the claim's formula (distinct normalized
contents over ALL contexts) demands 2 citations in summary mode, but
`_summary_min_citations` filters out blank contents and demands only 1,
and a synthesis attempt carrying exactly one citation verifies
successfully. -/
theorem claim_C6_counterexample :
    summary_min_citations [cxA6, cxWs6] = 1 ∧
    min 3 (max 1 (countDistinct
      ([cxA6, cxWs6].map fun c => normalizeContent c.content))) = 2 ∧
    (synthesize_and_verify c6Ports [] "Summarize the alpha launch"
        [cxA6, cxWs6] .General 1 true).1.toOption.map
      (fun o => o.citations.length) = some 1 := by
  refine ⟨by decide, by decide, by decide⟩

/-- Claim C6 (corrected): (1) every successful synthesis attempt through
the repository's Tailor yields pairwise-distinct valid citations, at
least `min_citations` many of them (`_summary_min_citations` in summary
mode, 1 otherwise); (2) a response with fewer citations than
`min_citations` is rejected by the verifier with a recoverable
`hallucination` failure; (3) but in summary mode the threshold is
min(3, max(1, u)) where u counts distinct normalized contents of the
context entries whose content is non-blank, falling back to the number
of contexts when that count is zero — not the claim's count over all
contents. -/
theorem claim_C6 :
    (∀ (P : Ports) (gen : String → String → Except AgentFailure String)
      (σ : List PlanEvent) (q : String) (ctxs : List RetrievedContext)
      (p : Persona) (a : Nat) (s : Bool) (out : TailorOutput) (σ' : List PlanEvent),
      P.tailorProcess = tailor_process gen →
      synthesize_and_verify P σ q ctxs p a s = (.ok out, σ') →
      (out.citations.map (·.chunk_id)).Nodup ∧
      (∀ cit ∈ out.citations, cit.chunk_id ∈ ctxs.map (·.chunk_id)) ∧
      (if s then summary_min_citations ctxs else 1) ≤ out.citations.length) ∧
    (∀ (resp : TailorOutput) (ctxs : List RetrievedContext) (mc : Nat),
      resp.citations.length < mc →
      ∃ f, verify_tailor_output resp ctxs mc = .error f ∧
        f.error_code = ErrorCodes.tailorHallucination ∧ f.recoverable = true) ∧
    (∀ ctxs : List RetrievedContext,
      summary_min_citations ctxs = min 3 (max 1
        (if countDistinct ((ctxs.filter fun c =>
              c.content ≠ "" && pyStrip c.content ≠ "").map
            fun c => normalizeContent c.content) = 0 then ctxs.length
         else countDistinct ((ctxs.filter fun c =>
              c.content ≠ "" && pyStrip c.content ≠ "").map
            fun c => normalizeContent c.content)))) := by
  refine ⟨?_, ?_, ?_⟩
  · intro P gen σ q ctxs p a s out σ' hP h
    obtain ⟨response, ht, hv, hog⟩ := synthesize_ok h
    rw [hP] at ht
    obtain ⟨hnd, hmem, -⟩ := tailor_process_ok ht
    have hc := apply_output_guardrails_citations hog
    have hlen := (verify_tailor_output_ok hv).1
    refine ⟨by rw [hc]; exact hnd, ?_, by rw [hc]; exact hlen⟩
    intro cit hcit
    exact hmem cit (by rw [← hc]; exact hcit)
  · intro resp ctxs mc h
    exact ⟨_, verify_tailor_output_short h, rfl, rfl⟩
  · intro ctxs
    simp only [summary_min_citations]
    split <;> omega

/-- C6 witness output: the `TailorOutput` produced in the
counterexample run. -/
def c6Out : TailorOutput :=
  ⟨"Summary [1]", [⟨"s", "c1", "alpha", none⟩], .General,
    generate_followups "Summarize the alpha launch",
    calculate_confidence (deduplicate_context [cxA6, cxWs6])⟩

/-- C6 witness events: the synthesis step's ledger events. -/
def c6Events : List PlanEvent :=
  [.add "Verifier + Synthesize attempt 1" "tailor.process+verifier" .pending,
   .set 1 .in_progress, .set 1 .completed]

/-- Claim C6, witness: part (1) at the concrete summary-mode run of the
counterexample and part (2) at its output against threshold 2. -/
theorem claim_C6_witness :
    ((c6Out.citations.map (·.chunk_id)).Nodup ∧
      (∀ cit ∈ c6Out.citations, cit.chunk_id ∈ [cxA6, cxWs6].map (·.chunk_id)) ∧
      (if true then summary_min_citations [cxA6, cxWs6] else 1) ≤
        c6Out.citations.length) ∧
    (∃ f, verify_tailor_output c6Out [cxA6, cxWs6] 2 = .error f ∧
      f.error_code = ErrorCodes.tailorHallucination ∧ f.recoverable = true) :=
  ⟨claim_C6.1 c6Ports c6Gen [] "Summarize the alpha launch" [cxA6, cxWs6]
      .General 1 true c6Out c6Events rfl (by rfl),
   claim_C6.2.1 c6Out [cxA6, cxWs6] 2 (by decide)⟩

/-- C9 fixture: a non-recoverable Memory failure that is not
`no_results`. -/
def abortFailure : AgentFailure :=
  ⟨"memory", ErrorCodes.timedOut, "db down", false, []⟩

/-- C9 ports: Memory always aborts with `abortFailure`. -/
def abortMemPorts : Ports := { okPorts with memory := fun _ => .inr abortFailure }

/-- C9 ports: Memory answers `no_results` on strict and relaxed
parameters alike. -/
def doubleNoResPorts : Ports := { okPorts with memory := fun _ => .inr noResultsFailure }

/-- Claim C9, witness: the three parts of `claim_C9` at a run with an
aborting memory (parts 1 and 2) and at a run whose relaxed retry also
returns `no_results` (part 3). -/
theorem claim_C9_witness :
    ([] : List RetrievedContext) = [] ∧
    retrieveLoop abortMemPorts 1 false 5 1 ["alpha"] [] [] = (([], some abortFailure),
      [.add "Retrieve context for \x27alpha\x27 (attempt 1)" "memory.query" .pending,
       .set 1 .in_progress, .set 1 .failed, .set 1 .failed]) ∧
    retrieveLoop doubleNoResPorts 1 false 5 1 ["alpha"] [] [] =
      (([], some noResultsFailure),
      [.add "Retrieve context for \x27alpha\x27 (attempt 1)" "memory.query" .pending,
       .set 1 .in_progress, .set 1 .failed,
       .add "Relax retrieval threshold for \x27alpha\x27 (attempt 1)" "memory.query" .pending,
       .set 2 .in_progress, .set 2 .failed, .set 1 .failed]) :=
  ⟨claim_C9.1 abortMemPorts [] "Explain Alpha" [] 1 false [] abortFailure _ rfl,
   claim_C9.2.1 abortMemPorts 1 false 5 1 "alpha" [] [] [] abortFailure rfl (by decide),
   claim_C9.2.2 doubleNoResPorts 1 false 5 1 "alpha" [] [] [] noResultsFailure
     noResultsFailure rfl rfl rfl⟩

/-! ## C1 — grounding invariant -/

theorem verify_tailor_output_invalid {resp : TailorOutput} {ctxs : List RetrievedContext}
    (mc : Nat) (h : ∃ cit ∈ resp.citations, cit.chunk_id ∉ ctxs.map (·.chunk_id)) :
    ∃ f, verify_tailor_output resp ctxs mc = .error f ∧
      f.error_code = ErrorCodes.tailorHallucination ∧ f.recoverable = true := by
  obtain ⟨cit, hcit, hnotin⟩ := h
  unfold verify_tailor_output
  by_cases h1 : (resp.citations.isEmpty || decide (resp.citations.length < mc)) = true
  · rw [if_pos h1]
    exact ⟨_, rfl, rfl, rfl⟩
  · rw [if_neg h1]
    have hinv : ¬ ((((resp.citations.filter fun c =>
        !((ctxs.map (·.chunk_id)).contains c.chunk_id)).map (·.chunk_id)).isEmpty) = true) := by
      simp only [List.isEmpty_eq_true, List.map_eq_nil_iff, List.filter_eq_nil_iff]
      intro hall
      have hmem2 : cit.chunk_id ∈ ctxs.map (·.chunk_id) := by simpa using hall cit hcit
      exact hnotin hmem2
    rw [if_neg hinv]
    exact ⟨_, rfl, rfl, rfl⟩

theorem runLoop_ok {P : Ports} {q : String} {topics : List String} {p : Persona}
    {s : Bool} :
    ∀ {r aPrev : Nat} {le : Option AgentFailure} {σ σf : List PlanEvent}
      {out : OrchestratorOutput},
      runLoop P q topics p s r aPrev le σ = (.ok out, σf) →
      ∃ attempt ctxs σ0 σ1 σ2,
        retrieve_contexts P σ0 q topics attempt s = ((ctxs, none), σ1) ∧
        synthesize_and_verify P σ1 q ctxs p attempt s = (.ok out.final_response, σ2) := by
  intro r
  induction r with
  | zero =>
    intro aPrev le σ σf out h
    simp only [runLoop] at h
    cases le <;> simp at h
  | succ n ih =>
    intro aPrev le σ σf out h
    simp only [runLoop] at h
    cases hr : retrieve_contexts P σ q topics (aPrev + 1) s with
    | mk rc σ1 =>
      cases rc with
      | mk ctxs oe =>
        simp only [hr] at h
        cases oe with
        | some e =>
          split at h
          · rename_i out2 σ2b heq
            have heq2 : ((Sum.inr e : TailorOutput ⊕ AgentFailure), σ1) =
                (Sum.inl out2, σ2b) := heq
            simp at heq2
          · rename_i e2 σ2b heq
            have heq2 : ((Sum.inr e : TailorOutput ⊕ AgentFailure), σ1) =
                (Sum.inr e2, σ2b) := heq
            simp only [Prod.mk.injEq, Sum.inr.injEq] at heq2
            obtain ⟨rfl, rfl⟩ := heq2
            split at h
            · simp at h
            · exact ih h
        | none =>
          cases hs : synthesize_and_verify P σ1 q ctxs p (aPrev + 1) s with
          | mk rs σ2 =>
            cases rs with
            | ok o =>
              simp only [hs] at h
              simp only [Prod.mk.injEq, Except.ok.injEq] at h
              exact ⟨aPrev + 1, ctxs, σ, σ1, σ2, hr, by rw [← h.1]; exact hs⟩
            | error e =>
              simp only [hs] at h
              split at h
              · simp at h
              · exact ih h

theorem rawEvent_tag_ne {a b : String} {d1 d2 : EventData} (hne : a ≠ b) :
    (⟨a, d1⟩ : RawEvent) ≠ ⟨b, d2⟩ := fun he => hne (congrArg RawEvent.event he)

theorem streamTokens_no_complete {l : List (String ⊕ AgentFailure)} {d : EventData} :
    (⟨"complete", d⟩ : RawEvent) ∉ (streamTokens l).1 := by
  induction l with
  | nil => simp [streamTokens]
  | cons x rest ih =>
    cases x with
    | inr f =>
      simp only [streamTokens]
      intro hm
      rcases List.mem_singleton.mp hm with he
      exact absurd he (rawEvent_tag_ne (by decide))
    | inl t =>
      cases hsr : streamTokens rest with
      | mk evs r =>
        simp only [streamTokens, hsr]
        intro hm
        rcases List.mem_cons.mp hm with he | hm2
        · exact absurd he (rawEvent_tag_ne (by decide))
        · exact ih (by rw [hsr]; exact hm2)

theorem stream_complete_inversion {P : Ports} {req : QueryRequest} {t : TailorOutput}
    (h : (⟨"complete", .answer t⟩ : RawEvent) ∈ (stream_query P req).1) :
    ∃ sanitized σg ctxs σr,
      apply_input_guardrails P [] req.text = (.ok sanitized, σg) ∧
      retrieve_contexts P σg sanitized (extract_topics P.gen sanitized) 1
        (is_summary_query sanitized) = ((ctxs, none), σr) ∧
      ∀ cit ∈ t.citations, cit.chunk_id ∈ ctxs.map (·.chunk_id) := by
  unfold stream_query at h
  cases hg : apply_input_guardrails P [] req.text with
  | mk rg σg =>
    cases rg with
    | error e =>
      simp only [hg] at h
      rcases List.mem_singleton.mp h with he
      exact absurd he (rawEvent_tag_ne (by decide))
    | ok sanitized =>
      simp only [hg] at h
      cases hr : retrieve_contexts P σg sanitized (extract_topics P.gen sanitized) 1
          (is_summary_query sanitized) with
      | mk rc σr =>
        cases rc with
        | mk ctxs oe =>
          simp only [hr] at h
          cases oe with
          | some e =>
            rcases List.mem_append.mp h with hm | hm
            · rcases List.mem_singleton.mp hm with he
              exact absurd he (rawEvent_tag_ne (by decide))
            · rcases List.mem_singleton.mp hm with he
              exact absurd he (rawEvent_tag_ne (by decide))
          | none =>
            split at h
            · rcases List.mem_append.mp h with hm | hm
              · exact absurd (List.mem_singleton.mp hm) (rawEvent_tag_ne (by decide))
              · exact absurd (List.mem_singleton.mp hm) (rawEvent_tag_ne (by decide))
            · rename_i contexts2 σ2 heqr
              simp only [Prod.mk.injEq] at heqr
              obtain ⟨⟨rfl, -⟩, rfl⟩ := heqr
              refine ⟨sanitized, σg, ctxs, σr, rfl, hr, ?_⟩
              split at h
              · rcases List.mem_append.mp h with hm | hm <;>
                  exact absurd (List.mem_singleton.mp hm) (rawEvent_tag_ne (by decide))
              · split at h
                · rcases List.mem_append.mp h with hm | hm
                  · rcases List.mem_append.mp hm with hm2 | hm2 <;>
                      exact absurd (List.mem_singleton.mp hm2) (rawEvent_tag_ne (by decide))
                  · exact absurd hm streamTokens_no_complete
                · rename_i accumulated heqacc
                  split at h
                  · rcases List.mem_append.mp h with hm | hm
                    · rcases List.mem_append.mp hm with hm2 | hm2
                      · rcases List.mem_append.mp hm2 with hm3 | hm3 <;>
                          exact absurd (List.mem_singleton.mp hm3) (rawEvent_tag_ne (by decide))
                      · exact absurd hm2 streamTokens_no_complete
                    · exact absurd (List.mem_singleton.mp hm) (rawEvent_tag_ne (by decide))
                  · rename_i output heqfin
                    split at h
                    · rcases List.mem_append.mp h with hm | hm
                      · rcases List.mem_append.mp hm with hm2 | hm2
                        · rcases List.mem_append.mp hm2 with hm3 | hm3 <;>
                            exact absurd (List.mem_singleton.mp hm3) (rawEvent_tag_ne (by decide))
                        · exact absurd hm2 streamTokens_no_complete
                      · exact absurd (List.mem_singleton.mp hm) (rawEvent_tag_ne (by decide))
                    · rename_i u heqver
                      split at h
                      · rcases List.mem_append.mp h with hm | hm
                        · rcases List.mem_append.mp hm with hm2 | hm2
                          · rcases List.mem_append.mp hm2 with hm3 | hm3 <;>
                              exact absurd (List.mem_singleton.mp hm3) (rawEvent_tag_ne (by decide))
                          · exact absurd hm2 streamTokens_no_complete
                        · exact absurd (List.mem_singleton.mp hm) (rawEvent_tag_ne (by decide))
                      · rename_i sanitizedOut heqog
                        rcases List.mem_append.mp h with hm | hm
                        · rcases List.mem_append.mp hm with hm2 | hm2
                          · rcases List.mem_append.mp hm2 with hm3 | hm3 <;>
                              exact absurd (List.mem_singleton.mp hm3) (rawEvent_tag_ne (by decide))
                          · exact absurd hm2 streamTokens_no_complete
                        · have he := List.mem_singleton.mp hm
                          have ht2 : t = sanitizedOut := by
                            have hd := congrArg RawEvent.data he
                            simp only at hd
                            cases hd
                            rfl
                          have hc := apply_output_guardrails_citations heqog
                          cases u
                          have hval := (verify_tailor_output_ok heqver).2
                          intro cit hcit
                          apply hval
                          rw [← hc, ← ht2]
                          exact hcit

/-- Claim C1 (confirmed): (1) a response citing any chunk_id outside the
retrieved set is rejected by `_verify_tailor_output` with a recoverable
`hallucination` failure; (2) any output delivered by a successful
`_synthesize_and_verify` cites only retrieved chunk_ids; (3) every
`OrchestratorOutput` returned by `run_query` carries an answer produced
by a verified synthesis over a successfully retrieved context set, all
of whose citations lie in that set; (4) the same for the answer of any
`complete` event `stream_query` attempts to yield. -/
theorem claim_C1 :
    (∀ (resp : TailorOutput) (ctxs : List RetrievedContext) (mc : Nat),
      (∃ cit ∈ resp.citations, cit.chunk_id ∉ ctxs.map (·.chunk_id)) →
      ∃ f, verify_tailor_output resp ctxs mc = .error f ∧
        f.error_code = ErrorCodes.tailorHallucination ∧ f.recoverable = true) ∧
    (∀ (P : Ports) (σ : List PlanEvent) (q : String) (ctxs : List RetrievedContext)
      (p : Persona) (a : Nat) (s : Bool) (out : TailorOutput) (σ' : List PlanEvent),
      synthesize_and_verify P σ q ctxs p a s = (.ok out, σ') →
      ∀ cit ∈ out.citations, cit.chunk_id ∈ ctxs.map (·.chunk_id)) ∧
    (∀ (P : Ports) (d : Nat) (req : QueryRequest) (out : OrchestratorOutput)
      (σf : List PlanEvent),
      run_query P d req = (.ok out, σf) →
      ∃ sanitized σg attempt ctxs σ0 σ1 σ2,
        apply_input_guardrails P [] req.text = (.ok sanitized, σg) ∧
        retrieve_contexts P σ0 sanitized (extract_topics P.gen sanitized) attempt
          (is_summary_query sanitized) = ((ctxs, none), σ1) ∧
        synthesize_and_verify P σ1 sanitized ctxs req.persona attempt
          (is_summary_query sanitized) = (.ok out.final_response, σ2) ∧
        ∀ cit ∈ out.final_response.citations, cit.chunk_id ∈ ctxs.map (·.chunk_id)) ∧
    (∀ (P : Ports) (req : QueryRequest) (t : TailorOutput),
      (⟨"complete", .answer t⟩ : RawEvent) ∈ (stream_query P req).1 →
      ∃ sanitized σg ctxs σr,
        apply_input_guardrails P [] req.text = (.ok sanitized, σg) ∧
        retrieve_contexts P σg sanitized (extract_topics P.gen sanitized) 1
          (is_summary_query sanitized) = ((ctxs, none), σr) ∧
        ∀ cit ∈ t.citations, cit.chunk_id ∈ ctxs.map (·.chunk_id)) := by
  refine ⟨fun resp ctxs mc h => verify_tailor_output_invalid mc h, ?_, ?_,
    fun P req t h => stream_complete_inversion h⟩
  · intro P σ q ctxs p a s out σ' h cit hcit
    obtain ⟨response, ht, hv, hog⟩ := synthesize_ok h
    have hc := apply_output_guardrails_citations hog
    exact (verify_tailor_output_ok hv).2 cit (by rw [← hc]; exact hcit)
  · intro P d req out σf h
    unfold run_query at h
    cases hg : apply_input_guardrails P [] req.text with
    | mk rg σg =>
      cases rg with
      | error e => simp only [hg] at h; simp at h
      | ok sanitized =>
        simp only [hg] at h
        obtain ⟨attempt, ctxs, σ0, σ1, σ2, hr, hs⟩ := runLoop_ok h
        refine ⟨sanitized, σg, attempt, ctxs, σ0, σ1, σ2, rfl, hr, hs, ?_⟩
        obtain ⟨response, ht, hv, hog⟩ := synthesize_ok hs
        have hc := apply_output_guardrails_citations hog
        intro cit hcit
        exact (verify_tailor_output_ok hv).2 cit (by rw [← hc]; exact hcit)

/-- C1 fixture: a response citing a chunk that was never retrieved. -/
def badResp : TailorOutput :=
  ⟨"Bad [1]", [⟨"ghost-doc", "ghost-chunk", "zzz", none⟩], .General, [], 1⟩

/-- C1 fixture: the synthesis output of the deterministic `okPorts` run. -/
def okSynthOut : TailorOutput :=
  ⟨"Mock answer [1]", [⟨"doc-alpha", "chunk-1", "Alpha launches in May.", none⟩],
    .General, generate_followups "Explain Alpha",
    calculate_confidence (deduplicate_context [ctxAlpha])⟩

/-- C1 fixture: the event log of a single-attempt `okPorts` run. -/
def okRunEvents : List PlanEvent :=
  [.add "Guardrails validation" "guardrails.enforce" .pending,
   .set 1 .in_progress, .set 1 .completed,
   .add "Retrieve context for \x27Explain Alpha\x27 (attempt 1)" "memory.query" .pending,
   .set 2 .in_progress, .set 2 .completed,
   .add "Verifier + Synthesize attempt 1" "tailor.process+verifier" .pending,
   .set 3 .in_progress, .set 3 .completed]

/-- C1 fixture: the synthesis-step events alone. -/
def okSynthEvents : List PlanEvent :=
  [.add "Verifier + Synthesize attempt 1" "tailor.process+verifier" .pending,
   .set 1 .in_progress, .set 1 .completed]

/-- C1 fixture: the answer of the `complete` event the `okPorts` stream
attempts to yield. -/
def streamOut : TailorOutput :=
  ⟨"Mock stream [1].", [⟨"doc-alpha", "chunk-1", "Alpha launches in May.", none⟩],
    .General, generate_followups "Explain Alpha",
    calculate_confidence (deduplicate_context [ctxAlpha])⟩

/-- Claim C1, witness: the four parts at concrete runs — an out-of-context
citation rejected, and the `okPorts` synthesis, full run and stream all
grounded in the retrieved chunk. -/
theorem claim_C1_witness :
    (∃ f, verify_tailor_output badResp [ctxAlpha] 1 = .error f ∧
      f.error_code = ErrorCodes.tailorHallucination ∧ f.recoverable = true) ∧
    (∀ cit ∈ okSynthOut.citations, cit.chunk_id ∈ [ctxAlpha].map (·.chunk_id)) ∧
    (∃ sanitized σg attempt ctxs σ0 σ1 σ2,
      apply_input_guardrails okPorts []
          (⟨"Explain Alpha", .General, false⟩ : QueryRequest).text = (.ok sanitized, σg) ∧
      retrieve_contexts okPorts σ0 sanitized (extract_topics okPorts.gen sanitized) attempt
        (is_summary_query sanitized) = ((ctxs, none), σ1) ∧
      synthesize_and_verify okPorts σ1 sanitized ctxs .General attempt
        (is_summary_query sanitized) =
        (.ok (⟨okSynthOut, replayPlan okRunEvents⟩ : OrchestratorOutput).final_response, σ2) ∧
      ∀ cit ∈ (⟨okSynthOut, replayPlan okRunEvents⟩ :
          OrchestratorOutput).final_response.citations,
        cit.chunk_id ∈ ctxs.map (·.chunk_id)) ∧
    (∃ sanitized σg ctxs σr,
      apply_input_guardrails okPorts []
          (⟨"Explain Alpha", .General, true⟩ : QueryRequest).text = (.ok sanitized, σg) ∧
      retrieve_contexts okPorts σg sanitized (extract_topics okPorts.gen sanitized) 1
        (is_summary_query sanitized) = ((ctxs, none), σr) ∧
      ∀ cit ∈ streamOut.citations, cit.chunk_id ∈ ctxs.map (·.chunk_id)) :=
  ⟨claim_C1.1 badResp [ctxAlpha] 1
      ⟨⟨"ghost-doc", "ghost-chunk", "zzz", none⟩, by decide, by decide⟩,
   claim_C1.2.1 okPorts [] "Explain Alpha" [ctxAlpha] .General 1 false
     okSynthOut okSynthEvents rfl,
   claim_C1.2.2.1 okPorts 1 ⟨"Explain Alpha", .General, false⟩
     ⟨okSynthOut, replayPlan okRunEvents⟩ okRunEvents rfl,
   claim_C1.2.2.2 okPorts ⟨"Explain Alpha", .General, true⟩ streamOut (by
     have hstream : (stream_query okPorts ⟨"Explain Alpha", .General, true⟩).1 =
         [⟨"thinking", .str "Searching knowledge base..."⟩,
          ⟨"thinking", .str "Generating response..."⟩,
          ⟨"token", .str "Mock "⟩, ⟨"token", .str "stream [1]."⟩,
          ⟨"complete", .answer streamOut⟩] := rfl
     rw [hstream]
     exact List.mem_cons_of_mem _ (List.mem_cons_of_mem _ (List.mem_cons_of_mem _
       (List.mem_cons_of_mem _ (List.mem_cons_self _ _)))))⟩

/-- Claim C10, counterexample: in the relaxed-retrieval run the strict
retrieval step's status history is `pending, in_progress, failed,
completed` — the final `failed → completed` overwrite (orchestrator.py
line 316) leaves a terminal status, which the claimed forward order
forbids; the amended relation admits exactly this transition. -/
theorem claim_C10_counterexample :
    statusHistory 1 (retrieve_contexts relaxMemPorts [] "Explain Alpha" [] 1 false).2 =
      [.pending, .in_progress, .failed, .completed] ∧
    statusForward .failed .completed = false ∧
    statusForwardAmended .failed .completed = true := by
  refine ⟨by decide, by decide, by decide⟩

/-- Claim C10 (corrected): over every `run_query` and `stream_query`
event log, the ledger grows append-only — step_ids are consecutive from
1 in append order, every replayed prefix of the log is a prefix of the
final step identities, and each step's status history follows
`pending → in_progress → {completed | failed}` EXTENDED by the
`failed → completed` overwrite that a successful relaxed retrieval
applies to its strict step (so `failed` is not terminal, contrary to the
claim). -/
theorem claim_C10 :
    (∀ (P : Ports) (d : Nat) (req : QueryRequest),
      ((replayPlan (run_query P d req).2).map (·.step_id) =
        List.range' 1 (replayPlan (run_query P d req).2).length) ∧
      (∀ k, (replayPlan ((run_query P d req).2.take k)).map stepKey <+:
        (replayPlan (run_query P d req).2).map stepKey) ∧
      (∀ sid, List.Chain' (fun a b => statusForwardAmended a b = true)
        (statusHistory sid (run_query P d req).2))) ∧
    (∀ (P : Ports) (req : QueryRequest),
      ((replayPlan (stream_query P req).2).map (·.step_id) =
        List.range' 1 (replayPlan (stream_query P req).2).length) ∧
      (∀ k, (replayPlan ((stream_query P req).2.take k)).map stepKey <+:
        (replayPlan (stream_query P req).2).map stepKey) ∧
      (∀ sid, List.Chain' (fun a b => statusForwardAmended a b = true)
        (statusHistory sid (stream_query P req).2))) :=
  ⟨fun P d req => ⟨replayPlan_ids _, fun k => replayPlan_take_prefix _ k,
    (EventsOk_run_query P d req).2⟩,
   fun P req => ⟨replayPlan_ids _, fun k => replayPlan_take_prefix _ k,
    (EventsOk_stream_query P req).2⟩⟩
